import Mathlib

/-! Transit backend: the `keys/<name>/config` update handler.

A shallow embedding of `pathConfigWrite` from
`builtin/logical/transit/path_config.go`, together with the properties of the
key policy configuration updater that are settled against it.

Go's `int` is embedded as `Int`: the handler only compares integers and
assigns the constant `1`, so no arithmetic can overflow.  Go's multiple return
values `(*logical.Response, error)` become `Option Response` and
`Option GoError` (`none` is `nil`).  The pointer to the loaded policy is mutated
in place by the Go code; here every mutation is an explicit record update of the
local value, and the storage is threaded through as explicit state.
-/

namespace Transit

/-- Modelled from the spec: the policy record type (its Go declaration lives in
another file of the package).  The fields are the ones of section 3 of the
specification, three of which `pathConfigWrite` reads or writes. -/
structure Policy where
  Name : String
  LatestVersion : Int
  MinDecryptionVersion : Int
  DeletionAllowed : Bool
  deriving DecidableEq, Repr

/-- Go `error` values that the handler can return: the sentinel
`logical.ErrInvalidRequest`, or an error produced by the storage backend. -/
inductive GoError where
  | ErrInvalidRequest : GoError
  | storage (msg : String) : GoError
  deriving DecidableEq, Repr

/-- The part of `logical.Response` the handler touches: the error flag and
message set by `logical.ErrorResponse`, and the list of warnings. -/
structure Response where
  IsError : Bool
  Error : Option String
  Warnings : List String
  deriving DecidableEq, Repr

/-- Go `&logical.Response{}`. -/
def Response.empty : Response :=
  { IsError := false, Error := none, Warnings := [] }

/-- Go `logical.ErrorResponse(text)`. -/
def ErrorResponse (text : String) : Response :=
  { IsError := true, Error := some text, Warnings := [] }

/-- Go `resp.AddWarning(warning)`. -/
def Response.AddWarning (resp : Response) (warning : String) : Response :=
  { resp with Warnings := resp.Warnings ++ [warning] }

/-- Modelled from the spec: the storage collaborator, with atomic single-record
get and put.  `policies` holds at most one visible record per key name (lookup
is by the `Name` field), `getErr` and `putErr` are the failures the backend
answers a read or a write with (`none`: the operation succeeds), and
`persisted` logs, in order, every record handed to `Persist`. -/
structure Storage where
  policies : List Policy
  getErr : Option String
  putErr : Option String
  persisted : List Policy
  deriving DecidableEq, Repr

/-- The part of `logical.Request` the handler uses. -/
structure Request where
  Storage : Storage
  deriving DecidableEq, Repr

/-- The typed request fields of `framework.FieldData` for this path.  An
optional field is `none` exactly when `d.GetOk` answers `ok = false`. -/
structure FieldData where
  name : String
  min_decryption_version : Option Int
  deletion_allowed : Option Bool
  deriving DecidableEq, Repr

/-- Modelled from the spec: `getPolicy(req, name)`, which is defined in another
file of the package.  It loads the policy record for `name` from the storage
collaborator and answers `(nil, err)` on a storage failure, `(nil, nil)` when
no record exists, and `(policy, nil)` otherwise. -/
def getPolicy (req : Request) (name : String) : Option Policy × Option GoError :=
  match req.Storage.getErr with
  | some e => (none, some (GoError.storage e))
  | none => (req.Storage.policies.find? (fun p => p.Name == name), none)

/-- Modelled from the spec: `policy.Persist(storage)`, which is defined in
another file of the package.  The record is handed to the storage collaborator;
an atomic put either replaces the record stored under the policy's name or
fails and leaves the stored records as they were. -/
def Policy.Persist (policy : Policy) (storage : Storage) : Option GoError × Storage :=
  match storage.putErr with
  | some e =>
      (some (GoError.storage e),
        { storage with persisted := storage.persisted ++ [policy] })
  | none =>
      (none,
        { storage with
            policies := policy :: storage.policies.filter (fun q => q.Name != policy.Name)
            persisted := storage.persisted ++ [policy] })

/-- What one call of the handler produces: the two Go return values and the
storage as the call leaves it. -/
structure Result where
  resp : Option Response
  err : Option GoError
  storage : Storage
  deriving DecidableEq, Repr

/-- Lines 83 to 104 of `pathConfigWrite`: the `deletion_allowed` branch, the
legacy-upgrade guard and the final persist, entered with the policy, response
and `persistNeeded` flag as the `min_decryption_version` branch left them. -/
def pathConfigWriteTail (req : Request) (d : FieldData) (policy : Policy)
    (resp : Response) (persistNeeded : Bool) : Result :=
  -- allowDeletionInt, ok := d.GetOk("deletion_allowed")
  let (policy, persistNeeded) :=
    match d.deletion_allowed with
    | some allowDeletion =>
        if allowDeletion != policy.DeletionAllowed then
          ({ policy with DeletionAllowed := allowDeletion }, true)
        else (policy, persistNeeded)
    | none => (policy, persistNeeded)
  -- guard: force the upgrade of a zero minimum decryption version
  let (policy, persistNeeded) :=
    if policy.MinDecryptionVersion = 0 then
      ({ policy with MinDecryptionVersion := 1 }, true)
    else (policy, persistNeeded)
  if !persistNeeded then
    { resp := none, err := none, storage := req.Storage }
  else
    let (err, storage) := policy.Persist req.Storage
    { resp := some resp, err := err, storage := storage }

/-- The update callback of the `keys/<name>/config` path (lines 40 to 105). -/
def pathConfigWrite (req : Request) (d : FieldData) : Result :=
  let name := d.name
  -- Check if the policy already exists
  match getPolicy req name with
  | (_, some err) => { resp := none, err := some err, storage := req.Storage }
  | (none, none) =>
      { resp := some (ErrorResponse ("no existing role named " ++ name ++ " could be found"))
        err := some GoError.ErrInvalidRequest
        storage := req.Storage }
  | (some policy, none) =>
      let resp := Response.empty
      let persistNeeded := false
      match d.min_decryption_version with
      | some minDecryptionVersion =>
          if minDecryptionVersion < 0 then
            { resp := some (ErrorResponse "min decryption version cannot be negative")
              err := none
              storage := req.Storage }
          else
            let (minDecryptionVersion, resp) :=
              if minDecryptionVersion = 0 then
                ((1 : Int), resp.AddWarning
                  "since Vault 0.3, transit key numbering starts at 1; forcing minimum to 1")
              else (minDecryptionVersion, resp)
            if minDecryptionVersion > 0 ∧
                minDecryptionVersion ≠ policy.MinDecryptionVersion then
              if minDecryptionVersion > policy.LatestVersion then
                { resp := some (ErrorResponse
                    ("cannot set min decryption version of " ++ toString minDecryptionVersion
                      ++ ", latest key version is " ++ toString policy.LatestVersion))
                  err := none
                  storage := req.Storage }
              else
                pathConfigWriteTail req d
                  { policy with MinDecryptionVersion := minDecryptionVersion } resp true
            else
              pathConfigWriteTail req d policy resp persistNeeded
      | none => pathConfigWriteTail req d policy resp persistNeeded

/-- The stored record for `name` exists and is readable: `getPolicy` answers
`(policy, nil)`. -/
def HasPolicy (s : Storage) (name : String) (policy : Policy) : Prop :=
  getPolicy { Storage := s } name = (some policy, none)

instance (s : Storage) (name : String) (policy : Policy) :
    Decidable (HasPolicy s name policy) := by
  unfold HasPolicy; infer_instance

/-- Storage used in the examples: a single policy record, no injected faults,
nothing persisted yet. -/
def storeOf (p : Policy) : Storage :=
  { policies := [p], getErr := none, putErr := none, persisted := [] }

/-- The value lines 67 to 70 leave in `minDecryptionVersion` for a supplied
non-negative value: a supplied `0` is replaced by `1`. -/
def normalizedVersion (v : Int) : Int :=
  if v = 0 then 1 else v

/-- The warning text of line 69. -/
def numberingWarning : String :=
  "since Vault 0.3, transit key numbering starts at 1; forcing minimum to 1"

/-- The response lines 55 to 70 build for a supplied non-negative value: empty,
or carrying the numbering warning when the value is `0`. -/
def respAfterNormalize (v : Int) : Response :=
  if v = 0 then Response.empty.AddWarning numberingWarning else Response.empty

/-- The message of the error response of lines 75 and 76. -/
def aboveLatestMessage (v latest : Int) : String :=
  "cannot set min decryption version of " ++ toString v
    ++ ", latest key version is " ++ toString latest

/-- The record lines 83 to 98 leave in `policy`: the deletion flag is the
supplied one when present, and a zero minimum decryption version is forced
to `1`. -/
def afterTail (da : Option Bool) (p : Policy) : Policy :=
  { p with
      DeletionAllowed := da.getD p.DeletionAllowed
      MinDecryptionVersion := if p.MinDecryptionVersion = 0 then 1 else p.MinDecryptionVersion }

/-- Whether lines 83 to 98 set `persistNeeded`: the supplied deletion flag
differs from the stored one, or the legacy-upgrade guard fires. -/
def tailChanges (da : Option Bool) (p : Policy) : Bool :=
  (da.getD p.DeletionAllowed != p.DeletionAllowed) || decide (p.MinDecryptionVersion = 0)

/-- The call succeeded: no Go error (neither the invalid-request sentinel nor a
storage failure) and no error response. -/
def Result.succeeded (r : Result) : Bool :=
  match r.resp, r.err with
  | some e, none => !e.IsError
  | none, none => true
  | _, some _ => false

/-- The records one call of the handler hands to `Persist`, in order: what the
call appends to the log of persisted records. -/
def persistCalls (req : Request) (d : FieldData) : List Policy :=
  (pathConfigWrite req d).storage.persisted.drop req.Storage.persisted.length

/-- The minimum decryption version a validated request leaves in a legacy
record: the normalised requested value, or `1` from the guard when the request
carries none. -/
def requestedOrOne (mdv : Option Int) : Int :=
  match mdv with
  | some v => normalizedVersion v
  | none => 1

/-- Whether a request passes the two checks of lines 63 and 74 against the
loaded record: the supplied version, if any, is not negative, and its
normalised value either equals the stored minimum (no upper-bound check is
made then) or is not above the latest version. -/
def passesValidation (p : Policy) (mdv : Option Int) : Prop :=
  match mdv with
  | none => True
  | some v =>
      0 ≤ v ∧ (normalizedVersion v = p.MinDecryptionVersion ∨
        normalizedVersion v ≤ p.LatestVersion)

instance (p : Policy) (mdv : Option Int) : Decidable (passesValidation p mdv) := by
  unfold passesValidation
  cases mdv <;> infer_instance

/-- The record a validated request leaves in memory when line 100 is reached:
the normalised requested version, if any, then the supplied deletion flag, if
any, then the legacy-upgrade guard. -/
def requestedRecord (p : Policy) (mdv : Option Int) (da : Option Bool) : Policy :=
  afterTail da
    (match mdv with
      | none => p
      | some v => { p with MinDecryptionVersion := normalizedVersion v })

/-- The response a validated request has built when line 100 is reached. -/
def respFor (mdv : Option Int) : Response :=
  match mdv with
  | none => Response.empty
  | some v => respAfterNormalize v

/-- The warnings a result carries: those of its response, none when the
response is `nil`. -/
def Result.warnings (r : Result) : List String :=
  match r.resp with
  | some e => e.Warnings
  | none => []

/-- The result is an error response (with or without a Go error). -/
def Result.isErrorResponse (r : Result) : Bool :=
  match r.resp with
  | some e => e.IsError
  | none => false

/-- The two ways a call can fail at the interface of section 6 of the
specification: an invalid-request error with a descriptive message, or an
internal error when the storage collaborator fails. -/
inductive Failure where
  | InvalidRequest (message : String) : Failure
  | Internal (cause : String) : Failure
  deriving DecidableEq, Repr

/-- The outcome of the specification's `UpdateConfig`: the pair
`(warnings, error)` of its contract (`none` is `nil`), and the storage as the
call leaves it, which records whether a write was made and what was written. -/
structure Outcome where
  warnings : Option (List String)
  error : Option Failure
  storage : Storage
  deriving DecidableEq, Repr

/-- The two texts the specification describes without wording them: the
message of the "no existing key" error for a key name, and the warning that
version numbering starts at 1. -/
structure Wording where
  noExistingKey : String → String
  numberingStartsAtOne : String

/-- The wording of the source for the two texts the specification leaves
open. -/
def sourceWording : Wording :=
  { noExistingKey := fun name => "no existing role named " ++ name ++ " could be found"
    numberingStartsAtOne := numberingWarning }

/-- The failure a storage error surfaces as. -/
def Failure.ofStorage (e : GoError) : Failure :=
  match e with
  | GoError.storage cause => Failure.Internal cause
  | GoError.ErrInvalidRequest => Failure.InvalidRequest ""

/-- Reference function, steps 4 to 7 of section 4.1 of the specification,
written from its text: the deletion flag, the legacy-upgrade guard, the no-op
return and the persist. -/
def UpdateConfig.finish (s : Storage) (optionalDeletionAllowed : Option Bool)
    (record : Policy) (dirty : Bool) (warnings : List String) : Outcome :=
  -- step 4
  let (record, dirty) :=
    match optionalDeletionAllowed with
    | some flag =>
        if flag ≠ record.DeletionAllowed then
          ({ record with DeletionAllowed := flag }, true)
        else (record, dirty)
    | none => (record, dirty)
  -- step 5: legacy-upgrade guard
  let (record, dirty) :=
    if record.MinDecryptionVersion = 0 then
      ({ record with MinDecryptionVersion := 1 }, true)
    else (record, dirty)
  -- step 6
  if !dirty then { warnings := none, error := none, storage := s }
  else
    -- step 7
    let (persistenceError, storage) := record.Persist s
    { warnings := some warnings
      error := persistenceError.map Failure.ofStorage
      storage := storage }

/-- Reference function: the algorithm of section 4.1 of the specification,
written step by step from its text (steps 1 to 7), with the messages of the
specification's examples.  A failing load terminates the call with the storage
error (section 5).  Unlike the source, step 3 compares the normalised value
with the stored one without first testing that it is positive. -/
def UpdateConfig (w : Wording) (s : Storage) (name : String)
    (optionalMinDecryptionVersion : Option Int) (optionalDeletionAllowed : Option Bool) :
    Outcome :=
  -- step 1: load the policy record
  match getPolicy ⟨s⟩ name with
  | (_, some e) => { warnings := none, error := some (Failure.ofStorage e), storage := s }
  | (none, none) =>
      { warnings := none
        error := some (Failure.InvalidRequest (w.noExistingKey name))
        storage := s }
  | (some record, none) =>
      -- step 2
      let dirty := false
      let warnings : List String := []
      -- step 3
      match optionalMinDecryptionVersion with
      | some requested =>
          if requested < 0 then
            { warnings := none
              error := some (Failure.InvalidRequest "min decryption version cannot be negative")
              storage := s }
          else
            let (requested, warnings) :=
              if requested = 0 then ((1 : Int), warnings ++ [w.numberingStartsAtOne])
              else (requested, warnings)
            if requested ≠ record.MinDecryptionVersion then
              if requested > record.LatestVersion then
                { warnings := none
                  error := some (Failure.InvalidRequest
                    ("cannot set min decryption version of " ++ toString requested
                      ++ ", latest key version is " ++ toString record.LatestVersion))
                  storage := s }
              else
                UpdateConfig.finish s optionalDeletionAllowed
                  { record with MinDecryptionVersion := requested } true warnings
            else UpdateConfig.finish s optionalDeletionAllowed record dirty warnings
      | none => UpdateConfig.finish s optionalDeletionAllowed record dirty warnings

/-- What a result of the handler is at the interface of section 6: an error
response is an invalid-request error with its message, a Go error of the
storage is an internal error, the warnings are those of a non-error response,
and the storage is the one the call leaves. -/
def observe (r : Result) : Outcome :=
  { warnings :=
      match r.resp with
      | some e => if e.IsError then none else some e.Warnings
      | none => none
    error :=
      match r.resp, r.err with
      | _, some (GoError.storage cause) => some (Failure.Internal cause)
      | some e, _ => if e.IsError then some (Failure.InvalidRequest (e.Error.getD "")) else none
      | none, some GoError.ErrInvalidRequest => some (Failure.InvalidRequest "")
      | none, none => none
    storage := r.storage }

/-- Lines 83 to 90 of `pathConfigWrite`: the `deletion_allowed` branch, giving
the policy and the `persistNeeded` flag it leaves. -/
def deletionBranch (d : FieldData) (policy : Policy) (persistNeeded : Bool) : Policy × Bool :=
  match d.deletion_allowed with
  | some allowDeletion =>
      if allowDeletion != policy.DeletionAllowed then
        ({ policy with DeletionAllowed := allowDeletion }, true)
      else (policy, persistNeeded)
  | none => (policy, persistNeeded)

/-- Lines 40 to 90 of `pathConfigWrite`: the policy, the response and the
`persistNeeded` flag with which control reaches the legacy-upgrade guard of
line 95, or `none` when the call has returned before it. -/
def stateAtGuard (req : Request) (d : FieldData) : Option (Policy × Response × Bool) :=
  match getPolicy req d.name with
  | (_, some _) => none
  | (none, none) => none
  | (some policy, none) =>
      let resp := Response.empty
      let persistNeeded := false
      match d.min_decryption_version with
      | some minDecryptionVersion =>
          if minDecryptionVersion < 0 then none
          else
            let (minDecryptionVersion, resp) :=
              if minDecryptionVersion = 0 then
                ((1 : Int), resp.AddWarning
                  "since Vault 0.3, transit key numbering starts at 1; forcing minimum to 1")
              else (minDecryptionVersion, resp)
            if minDecryptionVersion > 0 ∧
                minDecryptionVersion ≠ policy.MinDecryptionVersion then
              if minDecryptionVersion > policy.LatestVersion then none
              else
                let (policy, persistNeeded) :=
                  deletionBranch d { policy with MinDecryptionVersion := minDecryptionVersion } true
                some (policy, resp, persistNeeded)
            else
              let (policy, persistNeeded) := deletionBranch d policy persistNeeded
              some (policy, resp, persistNeeded)
      | none =>
          let (policy, persistNeeded) := deletionBranch d policy persistNeeded
          some (policy, resp, persistNeeded)

/-- Lines 92 to 104 of `pathConfigWrite`: the legacy-upgrade guard and the
final persist, from the state with which control reaches the guard. -/
def fromGuard (req : Request) (policy : Policy) (resp : Response) (persistNeeded : Bool) :
    Result :=
  let (policy, persistNeeded) :=
    if policy.MinDecryptionVersion = 0 then
      ({ policy with MinDecryptionVersion := 1 }, true)
    else (policy, persistNeeded)
  if !persistNeeded then
    { resp := none, err := none, storage := req.Storage }
  else
    let (err, storage) := policy.Persist req.Storage
    { resp := some resp, err := err, storage := storage }

/-- The legacy-upgrade guard changes the record: control reaches line 95 and
finds a zero minimum decryption version there. -/
def guardFires (req : Request) (d : FieldData) : Bool :=
  match stateAtGuard req d with
  | some (policy, _, _) => decide (policy.MinDecryptionVersion = 0)
  | none => false

/-! ## Unfolding lemmas shared by the proofs -/

/-- Closed form of the tail of the handler. -/
theorem pathConfigWriteTail_eq (s : Storage) (d : FieldData) (p : Policy)
    (resp : Response) (persistNeeded : Bool) :
    pathConfigWriteTail ⟨s⟩ d p resp persistNeeded =
      if (persistNeeded || tailChanges d.deletion_allowed p) = true then
        { resp := some resp
          err := ((afterTail d.deletion_allowed p).Persist s).1
          storage := ((afterTail d.deletion_allowed p).Persist s).2 }
      else { resp := none, err := none, storage := s } := by
  rcases d with ⟨name, mdv, da⟩
  rcases p with ⟨pn, pl, pm, pd⟩
  cases da with
  | none =>
      by_cases hm : pm = 0 <;> cases persistNeeded <;>
        simp [pathConfigWriteTail, tailChanges, afterTail, hm]
  | some b =>
      by_cases hm : pm = 0 <;> cases persistNeeded <;> cases b <;> cases pd <;>
        simp [pathConfigWriteTail, tailChanges, afterTail, hm]

/-- Every call of `Persist` appends the record to the log of persisted records. -/
theorem Persist_persisted (q : Policy) (s : Storage) :
    (q.Persist s).2.persisted = s.persisted ++ [q] := by
  unfold Policy.Persist
  cases s.putErr <;> rfl

/-- The error `Persist` returns is the storage collaborator's answer to the put. -/
theorem Persist_err (q : Policy) (s : Storage) :
    (q.Persist s).1 = s.putErr.map GoError.storage := by
  unfold Policy.Persist
  cases s.putErr <;> rfl


/-- With a readable stored record and no requested version, the handler is its
tail applied to the untouched record. -/
theorem pathConfigWrite_absent {s : Storage} {name : String} {p : Policy}
    (hp : HasPolicy s name p) (da : Option Bool) :
    pathConfigWrite ⟨s⟩ ⟨name, none, da⟩ =
      pathConfigWriteTail ⟨s⟩ ⟨name, none, da⟩ p Response.empty false := by
  unfold HasPolicy at hp
  simp [pathConfigWrite, hp]

/-- With a readable stored record, a negative requested version is rejected
before anything else is looked at. -/
theorem pathConfigWrite_negative {s : Storage} {name : String} {p : Policy}
    (hp : HasPolicy s name p) (v : Int) (hv : v < 0) (da : Option Bool) :
    pathConfigWrite ⟨s⟩ ⟨name, some v, da⟩ =
      { resp := some (ErrorResponse "min decryption version cannot be negative")
        err := none
        storage := s } := by
  unfold HasPolicy at hp
  simp [pathConfigWrite, hp, hv]

/-- With a readable stored record and a non-negative requested version, the
handler compares the normalised value with the stored one, checks it against
the latest version only when the two differ, and otherwise enters its tail. -/
theorem pathConfigWrite_present {s : Storage} {name : String} {p : Policy}
    (hp : HasPolicy s name p) (v : Int) (hv : 0 ≤ v) (da : Option Bool) :
    pathConfigWrite ⟨s⟩ ⟨name, some v, da⟩ =
      if normalizedVersion v ≠ p.MinDecryptionVersion then
        if normalizedVersion v > p.LatestVersion then
          { resp := some (ErrorResponse (aboveLatestMessage (normalizedVersion v) p.LatestVersion))
            err := none
            storage := s }
        else
          pathConfigWriteTail ⟨s⟩ ⟨name, some v, da⟩
            { p with MinDecryptionVersion := normalizedVersion v } (respAfterNormalize v) true
      else
        pathConfigWriteTail ⟨s⟩ ⟨name, some v, da⟩ p (respAfterNormalize v) false := by
  unfold HasPolicy at hp
  have hneg : ¬ v < 0 := not_lt.mpr hv
  by_cases h0 : v = 0
  · subst h0
    simp [pathConfigWrite, hp, normalizedVersion, respAfterNormalize, numberingWarning,
      aboveLatestMessage]
  · have hpos : 0 < v := lt_of_le_of_ne hv (Ne.symm h0)
    simp [pathConfigWrite, hp, hneg, h0, hpos, normalizedVersion, respAfterNormalize,
      aboveLatestMessage]

/-- The positive normalised value is never the legacy sentinel. -/
theorem normalizedVersion_pos {v : Int} (hv : 0 ≤ v) : 1 ≤ normalizedVersion v := by
  unfold normalizedVersion
  split <;> omega


/-- A request that asks for nothing the record does not already hold, against a
record whose minimum is non-zero, is a no-op. -/
theorem pathConfigWrite_noop {s : Storage} {name : String} {p : Policy}
    (hp : HasPolicy s name p) (mdv : Option Int) (da : Option Bool)
    (hnonzero : p.MinDecryptionVersion ≠ 0)
    (hmdv : ∀ v, mdv = some v → 0 ≤ v ∧ normalizedVersion v = p.MinDecryptionVersion)
    (hda : ∀ b, da = some b → b = p.DeletionAllowed) :
    pathConfigWrite ⟨s⟩ ⟨name, mdv, da⟩ = { resp := none, err := none, storage := s } := by
  have hch : tailChanges da p = false := by
    cases da with
    | none => simp [tailChanges, hnonzero]
    | some b => simp [tailChanges, hnonzero, hda b rfl]
  cases mdv with
  | none =>
      rw [pathConfigWrite_absent hp, pathConfigWriteTail_eq]
      simp [hch]
  | some v =>
      obtain ⟨hv0, hveq⟩ := hmdv v rfl
      rw [pathConfigWrite_present hp v hv0, if_neg (by simpa using hveq),
        pathConfigWriteTail_eq]
      simp [hch]

/-- A readable stored record is stored under its own name, and reads succeed. -/
theorem HasPolicy.name_eq {s : Storage} {name : String} {p : Policy}
    (hp : HasPolicy s name p) : p.Name = name ∧ s.getErr = none := by
  unfold HasPolicy getPolicy at hp
  cases hg : s.getErr with
  | some e => simp [hg] at hp
  | none =>
      simp only [hg, Prod.mk.injEq, and_true] at hp
      have := List.find?_some hp
      exact ⟨by simpa using this, rfl⟩

/-- After a successful put the persisted record is the one read back under its
name. -/
theorem HasPolicy.persist {s : Storage} (q : Policy) (hget : s.getErr = none)
    (hput : s.putErr = none) : HasPolicy (q.Persist s).2 q.Name q := by
  unfold HasPolicy getPolicy Policy.Persist
  simp [hget, hput]

/-- The tail never changes the latest version. -/
theorem afterTail_LatestVersion (da : Option Bool) (p : Policy) :
    (afterTail da p).LatestVersion = p.LatestVersion :=
  rfl

/-- The minimum the tail leaves: the guard replaces `0` by `1`. -/
theorem afterTail_MinDecryptionVersion (da : Option Bool) (p : Policy) :
    (afterTail da p).MinDecryptionVersion
      = if p.MinDecryptionVersion = 0 then 1 else p.MinDecryptionVersion :=
  rfl

/-- When nothing in the tail changes the record, the record the tail leaves is
the record it was given. -/
theorem afterTail_of_unchanged {da : Option Bool} {p : Policy}
    (h : tailChanges da p = false) : afterTail da p = p := by
  rcases p with ⟨pn, pl, pm, pd⟩
  simp only [tailChanges, Bool.or_eq_false_iff, decide_eq_false_iff_not, bne_eq_false_iff_eq] at h
  simp [afterTail, h.1, h.2]

/-- After a tail that returns no Go error, the record left by the tail is the
stored record: either it was persisted, or nothing changed. -/
theorem pathConfigWriteTail_stored {s : Storage} (d : FieldData) (p : Policy)
    (resp : Response) (persistNeeded : Bool) (hget : s.getErr = none)
    (hname : p.Name = d.name)
    (herr : (pathConfigWriteTail ⟨s⟩ d p resp persistNeeded).err = none)
    (hclean : persistNeeded = false → HasPolicy s d.name p) :
    HasPolicy (pathConfigWriteTail ⟨s⟩ d p resp persistNeeded).storage d.name
      (afterTail d.deletion_allowed p) := by
  rw [pathConfigWriteTail_eq] at herr ⊢
  by_cases hc : (persistNeeded || tailChanges d.deletion_allowed p) = true
  · rw [if_pos hc] at herr ⊢
    simp only [Persist_err] at herr
    have hput : s.putErr = none := by
      cases h : s.putErr with
      | none => rfl
      | some e => simp [h] at herr
    have := HasPolicy.persist (afterTail d.deletion_allowed p) hget hput
    have hn : (afterTail d.deletion_allowed p).Name = d.name := hname
    rw [hn] at this
    exact this
  · rw [if_neg hc]
    simp only [Bool.or_eq_true, not_or, Bool.not_eq_true] at hc
    rw [afterTail_of_unchanged hc.2]
    exact hclean hc.1

/-- The record the tail leaves never carries the legacy sentinel, keeps a
non-zero minimum, and holds the supplied deletion flag. -/
theorem afterTail_settled (da : Option Bool) (p : Policy) :
    (afterTail da p).MinDecryptionVersion ≠ 0 ∧
      (p.MinDecryptionVersion ≠ 0 →
        (afterTail da p).MinDecryptionVersion = p.MinDecryptionVersion) ∧
      (∀ b, da = some b → b = (afterTail da p).DeletionAllowed) := by
  refine ⟨?_, ?_, ?_⟩
  · simp only [afterTail]
    split <;> omega
  · intro h
    simp [afterTail, h]
  · intro b hb
    simp [afterTail, hb]

/-- After a successful call the stored record is one the same request no longer
changes: its minimum is non-zero and equals the normalised requested value, and
its deletion flag is the supplied one. -/
theorem pathConfigWrite_settles {s : Storage} {name : String} {p : Policy}
    (hp : HasPolicy s name p) (mdv : Option Int) (da : Option Bool)
    (hok : (pathConfigWrite ⟨s⟩ ⟨name, mdv, da⟩).succeeded = true) :
    ∃ q, HasPolicy (pathConfigWrite ⟨s⟩ ⟨name, mdv, da⟩).storage name q ∧
      q.MinDecryptionVersion ≠ 0 ∧
      (∀ v, mdv = some v → 0 ≤ v ∧ normalizedVersion v = q.MinDecryptionVersion) ∧
      (∀ b, da = some b → b = q.DeletionAllowed) := by
  obtain ⟨hname, hget⟩ := hp.name_eq
  have herr_of : ∀ r : Result, r.succeeded = true → r.err = none := by
    intro r hr
    rcases r with ⟨resp, err, st⟩
    cases err with
    | none => rfl
    | some e => cases resp <;> simp [Result.succeeded] at hr
  cases mdv with
  | none =>
      rw [pathConfigWrite_absent hp] at hok ⊢
      refine ⟨afterTail da p, ?_, (afterTail_settled da p).1, ?_, (afterTail_settled da p).2.2⟩
      · exact pathConfigWriteTail_stored ⟨name, none, da⟩ p _ false hget hname
          (herr_of _ hok) (fun _ => hp)
      · intro v hv
        cases hv
  | some v =>
      by_cases hv : v < 0
      · rw [pathConfigWrite_negative hp v hv da] at hok
        simp [Result.succeeded, ErrorResponse] at hok
      · have hv0 : 0 ≤ v := not_lt.mp hv
        have hpos := normalizedVersion_pos hv0
        rw [pathConfigWrite_present hp v hv0] at hok ⊢
        by_cases hne : normalizedVersion v ≠ p.MinDecryptionVersion
        · rw [if_pos hne] at hok ⊢
          by_cases hgt : normalizedVersion v > p.LatestVersion
          · rw [if_pos hgt] at hok
            simp [Result.succeeded, ErrorResponse] at hok
          · rw [if_neg hgt] at hok ⊢
            have hnz : ({ p with MinDecryptionVersion := normalizedVersion v } :
                Policy).MinDecryptionVersion ≠ 0 := by
              show normalizedVersion v ≠ 0
              omega
            refine ⟨afterTail da { p with MinDecryptionVersion := normalizedVersion v },
              ?_, (afterTail_settled da _).1, ?_, (afterTail_settled da _).2.2⟩
            · exact pathConfigWriteTail_stored ⟨name, some v, da⟩ _ _ true hget hname
                (herr_of _ hok) (fun h => by cases h)
            · intro w hw
              cases hw
              exact ⟨hv0, ((afterTail_settled da _).2.1 hnz).symm⟩
        · rw [if_neg hne] at hok ⊢
          have heq : normalizedVersion v = p.MinDecryptionVersion := not_not.mp hne
          have hnz : p.MinDecryptionVersion ≠ 0 := by omega
          refine ⟨afterTail da p, ?_, (afterTail_settled da p).1, ?_,
            (afterTail_settled da p).2.2⟩
          · exact pathConfigWriteTail_stored ⟨name, some v, da⟩ p _ false hget hname
              (herr_of _ hok) (fun _ => hp)
          · intro w hw
            cases hw
            exact ⟨hv0, heq.trans ((afterTail_settled da p).2.1 hnz).symm⟩

/-- The tail hands at most one record to persistence: the record it leaves,
exactly when `persistNeeded` is set on entry or by the tail itself. -/
theorem pathConfigWriteTail_persisted (s : Storage) (d : FieldData) (p : Policy)
    (resp : Response) (persistNeeded : Bool) :
    (pathConfigWriteTail ⟨s⟩ d p resp persistNeeded).storage.persisted.drop s.persisted.length =
      if (persistNeeded || tailChanges d.deletion_allowed p) = true then
        [afterTail d.deletion_allowed p]
      else [] := by
  rw [pathConfigWriteTail_eq]
  split
  · simp [Persist_persisted]
  · simp

/-- The tail entered with the loaded record itself changes something exactly
when the record it leaves differs from the loaded one. -/
theorem tailChanges_iff (da : Option Bool) (p : Policy) :
    tailChanges da p = true ↔ afterTail da p ≠ p := by
  constructor
  · intro h heq
    have hm := afterTail_MinDecryptionVersion da p
    have hd : (afterTail da p).DeletionAllowed = da.getD p.DeletionAllowed := rfl
    rw [heq] at hm hd
    simp only [tailChanges, Bool.or_eq_true, bne_iff_ne, ne_eq, decide_eq_true_eq] at h
    rcases h with h | h
    · exact h hd.symm
    · rw [if_pos h] at hm
      omega
  · intro h
    by_contra hc
    exact h (afterTail_of_unchanged (by simpa using hc))

/-- Master form of the handler on a request that passes validation: nothing
happens when the requested record is the loaded one, and otherwise the
requested record is persisted once and the response built so far is returned
with the answer of the put. -/
theorem pathConfigWrite_validated {s : Storage} {name : String} {p : Policy}
    (hp : HasPolicy s name p) (mdv : Option Int) (da : Option Bool)
    (hv : passesValidation p mdv) :
    pathConfigWrite ⟨s⟩ ⟨name, mdv, da⟩ =
      if requestedRecord p mdv da = p then { resp := none, err := none, storage := s }
      else
        { resp := some (respFor mdv)
          err := ((requestedRecord p mdv da).Persist s).1
          storage := ((requestedRecord p mdv da).Persist s).2 } := by
  cases mdv with
  | none =>
      rw [pathConfigWrite_absent hp, pathConfigWriteTail_eq]
      simp only [Bool.false_or, requestedRecord, respFor]
      by_cases hc : tailChanges da p = true
      · rw [if_pos hc, if_neg ((tailChanges_iff da p).mp hc)]
      · rw [if_neg hc, if_pos (not_not.mp (fun h => hc ((tailChanges_iff da p).mpr h)))]
  | some v =>
      obtain ⟨hv0, hcheck⟩ := hv
      have hpos := normalizedVersion_pos hv0
      rw [pathConfigWrite_present hp v hv0, pathConfigWriteTail_eq, pathConfigWriteTail_eq]
      simp only [Bool.false_or, Bool.true_or, if_true, requestedRecord, respFor]
      by_cases hne : normalizedVersion v ≠ p.MinDecryptionVersion
      · have hle : ¬ normalizedVersion v > p.LatestVersion := by
          rcases hcheck with h | h
          · exact absurd h hne
          · omega
        rw [if_pos hne, if_neg hle]
        have hdiff : afterTail da { p with MinDecryptionVersion := normalizedVersion v } ≠ p := by
          intro heq
          have hm := afterTail_MinDecryptionVersion da
            { p with MinDecryptionVersion := normalizedVersion v }
          rw [heq] at hm
          simp only [] at hm
          rw [if_neg (by omega)] at hm
          exact hne hm.symm
        rw [if_neg hdiff]
      · have heq : normalizedVersion v = p.MinDecryptionVersion := not_not.mp hne
        have hrec : ({ p with MinDecryptionVersion := normalizedVersion v } : Policy) = p := by
          rw [heq]
        rw [if_neg hne, hrec]
        by_cases hc : tailChanges da p = true
        · rw [if_pos hc, if_neg ((tailChanges_iff da p).mp hc)]
        · rw [if_neg hc, if_pos (not_not.mp (fun h => hc ((tailChanges_iff da p).mpr h)))]

/-- Master form of the handler on a request that fails validation: one of the
two error responses, a nil Go error, and the storage as it was. -/
theorem pathConfigWrite_rejected {s : Storage} {name : String} {p : Policy}
    (hp : HasPolicy s name p) (mdv : Option Int) (da : Option Bool)
    (hv : ¬ passesValidation p mdv) :
    ∃ v, mdv = some v ∧
      ((v < 0 ∧ pathConfigWrite ⟨s⟩ ⟨name, mdv, da⟩ =
          { resp := some (ErrorResponse "min decryption version cannot be negative")
            err := none
            storage := s }) ∨
       (0 ≤ v ∧ normalizedVersion v ≠ p.MinDecryptionVersion ∧
          normalizedVersion v > p.LatestVersion ∧
          pathConfigWrite ⟨s⟩ ⟨name, mdv, da⟩ =
            { resp := some (ErrorResponse
                (aboveLatestMessage (normalizedVersion v) p.LatestVersion))
              err := none
              storage := s })) := by
  cases mdv with
  | none => exact absurd trivial hv
  | some v =>
      refine ⟨v, rfl, ?_⟩
      by_cases hneg : v < 0
      · exact Or.inl ⟨hneg, pathConfigWrite_negative hp v hneg da⟩
      · have hv0 : 0 ≤ v := not_lt.mp hneg
        have hcond : normalizedVersion v ≠ p.MinDecryptionVersion ∧
            normalizedVersion v > p.LatestVersion := by
          simp only [passesValidation, not_and, not_or, not_le] at hv
          exact hv hv0
        refine Or.inr ⟨hv0, hcond.1, hcond.2, ?_⟩
        rw [pathConfigWrite_present hp v hv0, if_pos hcond.1, if_pos hcond.2]

/-- The normalised value is never the legacy sentinel. -/
theorem normalizedVersion_ne_zero (v : Int) : normalizedVersion v ≠ 0 := by
  unfold normalizedVersion
  split <;> omega

/-- The requested record keeps the name and the latest version of the loaded
one, and is the loaded one up to its minimum and its deletion flag. -/
theorem requestedRecord_frame (p : Policy) (mdv : Option Int) (da : Option Bool) :
    (requestedRecord p mdv da).Name = p.Name ∧
      (requestedRecord p mdv da).LatestVersion = p.LatestVersion ∧
      requestedRecord p mdv da =
        { p with MinDecryptionVersion := (requestedRecord p mdv da).MinDecryptionVersion
                 DeletionAllowed := (requestedRecord p mdv da).DeletionAllowed } := by
  cases mdv <;> exact ⟨rfl, rfl, rfl⟩

/-- The requested record differs from the loaded one exactly when the request
changes the version, changes the deletion flag, or the loaded minimum is the
legacy sentinel. -/
theorem requestedRecord_ne_iff (p : Policy) (mdv : Option Int) (da : Option Bool) :
    requestedRecord p mdv da ≠ p ↔
      (∃ v, mdv = some v ∧ normalizedVersion v ≠ p.MinDecryptionVersion) ∨
        (∃ b, da = some b ∧ b ≠ p.DeletionAllowed) ∨ p.MinDecryptionVersion = 0 := by
  rcases p with ⟨pn, pl, pm, pd⟩
  cases mdv with
  | none =>
      cases da with
      | none =>
          by_cases hm : pm = 0 <;> simp [requestedRecord, afterTail, hm]
      | some b =>
          by_cases hm : pm = 0 <;> simp [requestedRecord, afterTail, hm]
  | some v =>
      have hz := normalizedVersion_ne_zero v
      cases da with
      | none =>
          by_cases hm : pm = 0
          · subst hm
            simp [requestedRecord, afterTail, hz]
          · simp [requestedRecord, afterTail, hz, hm]
      | some b =>
          by_cases hm : pm = 0
          · subst hm
            simp [requestedRecord, afterTail, hz]
          · simp [requestedRecord, afterTail, hz, hm]
            tauto

/-- A validated request hands the requested record to persistence when it
differs from the loaded one, and nothing otherwise. -/
theorem persistCalls_validated {s : Storage} {name : String} {p : Policy}
    (hp : HasPolicy s name p) (mdv : Option Int) (da : Option Bool)
    (hv : passesValidation p mdv) :
    persistCalls ⟨s⟩ ⟨name, mdv, da⟩ =
      if requestedRecord p mdv da = p then [] else [requestedRecord p mdv da] := by
  unfold persistCalls
  rw [pathConfigWrite_validated hp mdv da hv]
  split
  · simp
  · simp [Persist_persisted]

/-- A request that fails validation hands nothing to persistence and leaves the
storage as it was. -/
theorem persistCalls_rejected {s : Storage} {name : String} {p : Policy}
    (hp : HasPolicy s name p) (mdv : Option Int) (da : Option Bool)
    (hv : ¬ passesValidation p mdv) :
    persistCalls ⟨s⟩ ⟨name, mdv, da⟩ = [] ∧
      (pathConfigWrite ⟨s⟩ ⟨name, mdv, da⟩).storage = s ∧
      (pathConfigWrite ⟨s⟩ ⟨name, mdv, da⟩).isErrorResponse = true ∧
      (pathConfigWrite ⟨s⟩ ⟨name, mdv, da⟩).err = none := by
  obtain ⟨v, _, h | h⟩ := pathConfigWrite_rejected hp mdv da hv
  · unfold persistCalls
    rw [h.2]
    simp [Result.isErrorResponse, ErrorResponse]
  · unfold persistCalls
    rw [h.2.2.2]
    simp [Result.isErrorResponse, ErrorResponse]

/-- Without a readable record the handler returns before the tail and leaves
the storage as it was. -/
theorem pathConfigWrite_unreadable {s : Storage} {name : String}
    (h : ¬ ∃ p, HasPolicy s name p) (mdv : Option Int) (da : Option Bool) :
    (pathConfigWrite ⟨s⟩ ⟨name, mdv, da⟩).storage = s ∧
      persistCalls ⟨s⟩ ⟨name, mdv, da⟩ = [] ∧
      (pathConfigWrite ⟨s⟩ ⟨name, mdv, da⟩).err ≠ none := by
  have hst : (pathConfigWrite ⟨s⟩ ⟨name, mdv, da⟩).storage = s ∧
      (pathConfigWrite ⟨s⟩ ⟨name, mdv, da⟩).err ≠ none := by
    rcases hg : getPolicy ⟨s⟩ name with ⟨_ | q, _ | e⟩
    · simp [pathConfigWrite, hg]
    · simp [pathConfigWrite, hg]
    · exact absurd ⟨q, hg⟩ h
    · simp [pathConfigWrite, hg]
  refine ⟨hst.1, ?_, hst.2⟩
  unfold persistCalls
  rw [hst.1]
  simp

/-- Closed form of steps 4 to 7 of the reference function. -/
theorem UpdateConfig.finish_eq (s : Storage) (da : Option Bool) (p : Policy)
    (dirty : Bool) (warnings : List String) :
    UpdateConfig.finish s da p dirty warnings =
      if (dirty || tailChanges da p) = true then
        { warnings := some warnings
          error := ((afterTail da p).Persist s).1.map Failure.ofStorage
          storage := ((afterTail da p).Persist s).2 }
      else { warnings := none, error := none, storage := s } := by
  rcases p with ⟨pn, pl, pm, pd⟩
  cases da with
  | none =>
      by_cases hm : pm = 0 <;> cases dirty <;>
        simp [UpdateConfig.finish, tailChanges, afterTail, hm]
  | some b =>
      by_cases hm : pm = 0 <;> cases dirty <;> cases b <;> cases pd <;>
        simp [UpdateConfig.finish, tailChanges, afterTail, hm]

/-- The tail of the handler, observed at the interface, is steps 4 to 7 of the
reference function. -/
theorem observe_pathConfigWriteTail (s : Storage) (d : FieldData) (p : Policy)
    (resp : Response) (dirty : Bool) (hresp : resp.IsError = false) :
    observe (pathConfigWriteTail ⟨s⟩ d p resp dirty) =
      UpdateConfig.finish s d.deletion_allowed p dirty resp.Warnings := by
  rw [pathConfigWriteTail_eq, UpdateConfig.finish_eq]
  split
  · rw [Persist_err]
    cases s.putErr <;> simp [observe, hresp, Failure.ofStorage]
  · rfl

/-- The tail of the handler is its deletion branch followed by the guard and
the persist. -/
theorem pathConfigWriteTail_fromGuard (req : Request) (d : FieldData) (policy : Policy)
    (resp : Response) (persistNeeded : Bool) :
    pathConfigWriteTail req d policy resp persistNeeded =
      fromGuard req (deletionBranch d policy persistNeeded).1 resp
        (deletionBranch d policy persistNeeded).2 := by
  rcases d with ⟨name, mdv, da⟩
  cases da with
  | none => rfl
  | some b =>
      simp only [pathConfigWriteTail, deletionBranch, fromGuard]

/-- Whenever control reaches the guard, the handler is the guard and the
persist applied to the state reached. -/
theorem pathConfigWrite_fromGuard (req : Request) (d : FieldData)
    (st : Policy × Response × Bool) (h : stateAtGuard req d = some st) :
    pathConfigWrite req d = fromGuard req st.1 st.2.1 st.2.2 := by
  unfold stateAtGuard at h
  unfold pathConfigWrite
  rcases hg : getPolicy req d.name with ⟨_ | p, _ | e⟩
  · simp [hg] at h
  · simp [hg] at h
  · simp only [hg] at h ⊢
    cases hm : d.min_decryption_version with
    | none =>
        simp only [hm] at h ⊢
        cases h
        exact pathConfigWriteTail_fromGuard _ _ _ _ _
    | some v =>
        simp only [hm] at h ⊢
        by_cases hneg : v < 0
        · simp [hneg] at h
        · rw [if_neg hneg] at h ⊢
          by_cases h0 : v = 0
          · subst h0
            simp only [if_true] at h ⊢
            split at h
            · split at h
              · cases h
              · rename_i hc hgt
                cases h
                rw [if_pos hc, if_neg hgt]
                exact pathConfigWriteTail_fromGuard _ _ _ _ _
            · rename_i hc
              cases h
              rw [if_neg hc]
              exact pathConfigWriteTail_fromGuard _ _ _ _ _
          · simp only [h0, if_false] at h ⊢
            split at h
            · split at h
              · cases h
              · rename_i hc hgt
                cases h
                rw [if_pos hc, if_neg hgt]
                exact pathConfigWriteTail_fromGuard _ _ _ _ _
            · rename_i hc
              cases h
              rw [if_neg hc]
              exact pathConfigWriteTail_fromGuard _ _ _ _ _
  · simp [hg] at h

/-- The deletion branch never touches the minimum decryption version. -/
theorem deletionBranch_MinDecryptionVersion (d : FieldData) (policy : Policy)
    (persistNeeded : Bool) :
    (deletionBranch d policy persistNeeded).1.MinDecryptionVersion
      = policy.MinDecryptionVersion := by
  unfold deletionBranch
  cases d.deletion_allowed with
  | none => rfl
  | some b =>
      simp only []
      split <;> rfl

/-- Without a requested version, control reaches the guard with the loaded
record after the deletion branch. -/
theorem stateAtGuard_absent {s : Storage} {name : String} {p : Policy}
    (hp : HasPolicy s name p) (da : Option Bool) :
    stateAtGuard ⟨s⟩ ⟨name, none, da⟩ =
      some ((deletionBranch ⟨name, none, da⟩ p false).1, Response.empty,
        (deletionBranch ⟨name, none, da⟩ p false).2) := by
  unfold HasPolicy at hp
  simp [stateAtGuard, hp]

/-- With a negative requested version, control never reaches the guard. -/
theorem stateAtGuard_negative {s : Storage} {name : String} {p : Policy}
    (hp : HasPolicy s name p) (v : Int) (hv : v < 0) (da : Option Bool) :
    stateAtGuard ⟨s⟩ ⟨name, some v, da⟩ = none := by
  unfold HasPolicy at hp
  simp [stateAtGuard, hp, hv]

/-- With a non-negative requested version, control reaches the guard unless
the upper-bound check fails, and the record then holds the normalised value. -/
theorem stateAtGuard_present {s : Storage} {name : String} {p : Policy}
    (hp : HasPolicy s name p) (v : Int) (hv : 0 ≤ v) (da : Option Bool) :
    stateAtGuard ⟨s⟩ ⟨name, some v, da⟩ =
      if normalizedVersion v ≠ p.MinDecryptionVersion then
        if normalizedVersion v > p.LatestVersion then none
        else
          some ((deletionBranch ⟨name, some v, da⟩
                  { p with MinDecryptionVersion := normalizedVersion v } true).1,
            respAfterNormalize v,
            (deletionBranch ⟨name, some v, da⟩
                  { p with MinDecryptionVersion := normalizedVersion v } true).2)
      else
        some ((deletionBranch ⟨name, some v, da⟩ p false).1, respAfterNormalize v,
          (deletionBranch ⟨name, some v, da⟩ p false).2) := by
  unfold HasPolicy at hp
  have hneg : ¬ v < 0 := not_lt.mpr hv
  by_cases h0 : v = 0
  · subst h0
    simp [stateAtGuard, hp, normalizedVersion, respAfterNormalize, numberingWarning]
  · have hpos : 0 < v := lt_of_le_of_ne hv (Ne.symm h0)
    simp [stateAtGuard, hp, hneg, h0, hpos, normalizedVersion, respAfterNormalize]

/-- The message of the upper-bound failure is never the message of the sign
failure: they start with different letters. -/
theorem aboveLatestMessage_ne_negative (a b : Int) :
    aboveLatestMessage a b ≠ "min decryption version cannot be negative" := by
  intro h
  unfold aboveLatestMessage at h
  have h2 := congrArg String.data h
  simp only [String.data_append] at h2
  have h3 := congrArg List.head? h2
  simp at h3

/-- The response a validated request has built is never an error response, and
it carries the numbering warning exactly when the supplied version is 0. -/
theorem respFor_facts (mdv : Option Int) :
    (respFor mdv).IsError = false ∧
      (mdv = some 0 → (respFor mdv).Warnings = [numberingWarning]) ∧
      (mdv ≠ some 0 → (respFor mdv).Warnings = []) := by
  cases mdv with
  | none => exact ⟨rfl, fun h => (nomatch h), fun _ => rfl⟩
  | some v =>
      by_cases h0 : v = 0
      · subst h0
        exact ⟨rfl, fun _ => rfl, fun h => absurd rfl h⟩
      · refine ⟨?_, ?_, ?_⟩
        · simp [respFor, respAfterNormalize, h0, Response.empty]
        · intro h
          cases h
          exact absurd rfl h0
        · intro _
          simp [respFor, respAfterNormalize, h0, Response.empty]

/-! ## Claims -/

/-- C1: for an existing policy record and a request whose min_decryption_version
is present and negative, the handler answers the error response
"min decryption version cannot be negative", hands nothing to persistence and
leaves the storage (hence the stored record) as it was, whatever
deletion_allowed the request carries. -/
theorem C1_negative_version_rejected (s : Storage) (name : String) (p : Policy)
    (v : Int) (da : Option Bool) (hp : HasPolicy s name p) (hv : v < 0) :
    (pathConfigWrite ⟨s⟩ ⟨name, some v, da⟩).resp
        = some (ErrorResponse "min decryption version cannot be negative") ∧
      (pathConfigWrite ⟨s⟩ ⟨name, some v, da⟩).err = none ∧
      (pathConfigWrite ⟨s⟩ ⟨name, some v, da⟩).storage.persisted = s.persisted ∧
      (pathConfigWrite ⟨s⟩ ⟨name, some v, da⟩).storage = s ∧
      HasPolicy (pathConfigWrite ⟨s⟩ ⟨name, some v, da⟩).storage name p := by
  rw [pathConfigWrite_negative hp v hv da]
  exact ⟨rfl, rfl, rfl, rfl, hp⟩

/-- Witness for C1: record with MinDecryptionVersion 3, request -1 together
with a differing deletion_allowed. -/
theorem C1_negative_version_rejected_witness :
    (pathConfigWrite ⟨storeOf ⟨"k", 5, 3, false⟩⟩ ⟨"k", some (-1), some true⟩).resp
        = some (ErrorResponse "min decryption version cannot be negative") ∧
      (pathConfigWrite ⟨storeOf ⟨"k", 5, 3, false⟩⟩ ⟨"k", some (-1), some true⟩).err = none ∧
      (pathConfigWrite ⟨storeOf ⟨"k", 5, 3, false⟩⟩ ⟨"k", some (-1), some true⟩).storage.persisted
        = (storeOf ⟨"k", 5, 3, false⟩).persisted ∧
      (pathConfigWrite ⟨storeOf ⟨"k", 5, 3, false⟩⟩ ⟨"k", some (-1), some true⟩).storage
        = storeOf ⟨"k", 5, 3, false⟩ ∧
      HasPolicy (pathConfigWrite ⟨storeOf ⟨"k", 5, 3, false⟩⟩ ⟨"k", some (-1), some true⟩).storage
        "k" ⟨"k", 5, 3, false⟩ :=
  C1_negative_version_rejected (storeOf ⟨"k", 5, 3, false⟩) "k" ⟨"k", 5, 3, false⟩ (-1)
    (some true) (by decide) (by decide)

/-- C2: for an existing policy record satisfying the data-model invariant
(LatestVersion at least 1, MinDecryptionVersion 0 or within 1..LatestVersion)
and a requested min_decryption_version v above LatestVersion, the handler
answers the error response "cannot set min decryption version of v, latest key
version is LatestVersion", whose text contains both numbers, hands nothing to
persistence and leaves the storage as it was, whatever deletion_allowed the
request carries. -/
theorem C2_version_above_latest_rejected (s : Storage) (name : String) (p : Policy)
    (v : Int) (da : Option Bool) (hp : HasPolicy s name p)
    (hlatest : 1 ≤ p.LatestVersion)
    (hinv : p.MinDecryptionVersion = 0 ∨
      (1 ≤ p.MinDecryptionVersion ∧ p.MinDecryptionVersion ≤ p.LatestVersion))
    (hv : p.LatestVersion < v) :
    (pathConfigWrite ⟨s⟩ ⟨name, some v, da⟩).resp
        = some (ErrorResponse ("cannot set min decryption version of " ++ toString v
            ++ ", latest key version is " ++ toString p.LatestVersion)) ∧
      (toString v).data <:+: ("cannot set min decryption version of " ++ toString v
            ++ ", latest key version is " ++ toString p.LatestVersion).data ∧
      (toString p.LatestVersion).data <:+: ("cannot set min decryption version of "
            ++ toString v ++ ", latest key version is " ++ toString p.LatestVersion).data ∧
      (pathConfigWrite ⟨s⟩ ⟨name, some v, da⟩).err = none ∧
      (pathConfigWrite ⟨s⟩ ⟨name, some v, da⟩).storage.persisted = s.persisted ∧
      (pathConfigWrite ⟨s⟩ ⟨name, some v, da⟩).storage = s ∧
      HasPolicy (pathConfigWrite ⟨s⟩ ⟨name, some v, da⟩).storage name p := by
  have hv0 : 0 ≤ v := by omega
  have hnorm : normalizedVersion v = v := by
    unfold normalizedVersion
    split <;> omega
  have hne : v ≠ p.MinDecryptionVersion := by
    rcases hinv with h | ⟨_, h⟩ <;> omega
  rw [pathConfigWrite_present hp v hv0 da, hnorm, if_pos hne, if_pos (show v > p.LatestVersion from hv)]
  refine ⟨rfl, ?_, ?_, rfl, rfl, rfl, hp⟩
  · simp only [String.data_append]
    exact ⟨"cannot set min decryption version of ".data,
      ", latest key version is ".data ++ (toString p.LatestVersion).data, by simp⟩
  · simp only [String.data_append]
    exact ⟨"cannot set min decryption version of ".data ++ (toString v).data
      ++ ", latest key version is ".data, [], by simp⟩

/-- Witness for C2: LatestVersion 5, stored minimum 3, request 6 together with
a differing deletion_allowed. -/
theorem C2_version_above_latest_rejected_witness :
    (pathConfigWrite ⟨storeOf ⟨"k", 5, 3, false⟩⟩ ⟨"k", some 6, some true⟩).resp
        = some (ErrorResponse "cannot set min decryption version of 6, latest key version is 5") ∧
      (pathConfigWrite ⟨storeOf ⟨"k", 5, 3, false⟩⟩ ⟨"k", some 6, some true⟩).err = none ∧
      (pathConfigWrite ⟨storeOf ⟨"k", 5, 3, false⟩⟩ ⟨"k", some 6, some true⟩).storage
        = storeOf ⟨"k", 5, 3, false⟩ :=
  have h := C2_version_above_latest_rejected (storeOf ⟨"k", 5, 3, false⟩) "k"
    ⟨"k", 5, 3, false⟩ 6 (some true) (by decide) (by decide) (by decide) (by decide)
  ⟨h.1, h.2.2.2.1, h.2.2.2.2.2.1⟩

/-- C3 (as stated) fails: against a record whose minimum is already 1 a request
of 0 returns (nil, nil), so no warning is returned; and against a record whose
LatestVersion is 0 the normalised request of 1 is rejected by the upper-bound
check. -/
theorem C3_zero_request_counterexample :
    pathConfigWrite ⟨storeOf ⟨"k", 5, 1, false⟩⟩ ⟨"k", some 0, none⟩
        = { resp := none, err := none, storage := storeOf ⟨"k", 5, 1, false⟩ } ∧
      pathConfigWrite ⟨storeOf ⟨"k", 0, 0, false⟩⟩ ⟨"k", some 0, none⟩
        = { resp := some (ErrorResponse
              "cannot set min decryption version of 1, latest key version is 0")
            err := none
            storage := storeOf ⟨"k", 0, 0, false⟩ } := by
  decide

/-- C3 (amended): for an existing policy record whose LatestVersion is at least
1, a request with min_decryption_version = 0 is handled as a request for
version 1 (same storage and same Go error as the request for 1) and is never
answered with an error response; when the stored minimum differs from 1 or the
supplied deletion flag differs from the stored one, the record is persisted
once with MinDecryptionVersion = 1 and the response carries exactly the
numbering warning; otherwise the call returns (nil, nil) and touches nothing. -/
theorem C3_zero_request_normalized (s : Storage) (name : String) (p : Policy)
    (da : Option Bool) (hp : HasPolicy s name p) (hlatest : 1 ≤ p.LatestVersion) :
    ((pathConfigWrite ⟨s⟩ ⟨name, some 0, da⟩).storage
        = (pathConfigWrite ⟨s⟩ ⟨name, some 1, da⟩).storage ∧
      (pathConfigWrite ⟨s⟩ ⟨name, some 0, da⟩).err
        = (pathConfigWrite ⟨s⟩ ⟨name, some 1, da⟩).err) ∧
    (∀ r, (pathConfigWrite ⟨s⟩ ⟨name, some 0, da⟩).resp = some r → r.IsError = false) ∧
    (p.MinDecryptionVersion ≠ 1 ∨ da.getD p.DeletionAllowed ≠ p.DeletionAllowed →
      (pathConfigWrite ⟨s⟩ ⟨name, some 0, da⟩).resp
          = some { IsError := false, Error := none, Warnings := [numberingWarning] } ∧
        (pathConfigWrite ⟨s⟩ ⟨name, some 0, da⟩).err = s.putErr.map GoError.storage ∧
        (pathConfigWrite ⟨s⟩ ⟨name, some 0, da⟩).storage.persisted
          = s.persisted ++
              [{ p with MinDecryptionVersion := 1
                        DeletionAllowed := da.getD p.DeletionAllowed }]) ∧
    (¬ (p.MinDecryptionVersion ≠ 1 ∨ da.getD p.DeletionAllowed ≠ p.DeletionAllowed) →
      pathConfigWrite ⟨s⟩ ⟨name, some 0, da⟩ = { resp := none, err := none, storage := s }) := by
  have h0 := pathConfigWrite_present hp 0 (le_refl 0) da
  have h1 := pathConfigWrite_present hp 1 (by decide) da
  have hn0 : normalizedVersion 0 = 1 := rfl
  have hn1 : normalizedVersion 1 = 1 := rfl
  have hle : ¬ (1 : Int) > p.LatestVersion := by omega
  rw [hn0, if_neg hle, pathConfigWriteTail_eq, pathConfigWriteTail_eq] at h0
  rw [hn1, if_neg hle, pathConfigWriteTail_eq, pathConfigWriteTail_eq] at h1
  rw [h0, h1]
  rcases p with ⟨pn, pl, pm, pd⟩
  by_cases hm : pm = 1
  · subst hm
    cases da with
    | none => simp [tailChanges]
    | some b =>
        cases b <;> cases pd <;>
          simp [tailChanges, afterTail, respAfterNormalize, Response.AddWarning,
            Response.empty, Persist_persisted, Persist_err]
  · have hm' : ¬ (1 : Int) = pm := fun h => hm h.symm
    simp [hm, hm', afterTail, respAfterNormalize, Response.AddWarning, Response.empty,
      Persist_persisted, Persist_err]

/-- Witness for C3 (amended): LatestVersion 5, stored minimum 3, request 0. -/
theorem C3_zero_request_normalized_witness :
    (pathConfigWrite ⟨storeOf ⟨"k", 5, 3, false⟩⟩ ⟨"k", some 0, none⟩).resp
        = some { IsError := false, Error := none, Warnings := [numberingWarning] } ∧
      (pathConfigWrite ⟨storeOf ⟨"k", 5, 3, false⟩⟩ ⟨"k", some 0, none⟩).storage.persisted
        = [⟨"k", 5, 1, false⟩] :=
  have h := (C3_zero_request_normalized (storeOf ⟨"k", 5, 3, false⟩) "k" ⟨"k", 5, 3, false⟩
    none (by decide) (by decide)).2.2.1 (Or.inl (by decide))
  ⟨h.1, h.2.2⟩

/-- C4 (as stated) fails: against a legacy record (stored minimum 0,
LatestVersion 5) a request of 3 persists the record with MinDecryptionVersion 3,
not 1; and a request of -1 is rejected and nothing is persisted. -/
theorem C4_legacy_upgrade_counterexample :
    (pathConfigWrite ⟨storeOf ⟨"k", 5, 0, false⟩⟩ ⟨"k", some 3, none⟩).storage.persisted
        = [⟨"k", 5, 3, false⟩] ∧
      pathConfigWrite ⟨storeOf ⟨"k", 5, 0, false⟩⟩ ⟨"k", some (-1), none⟩
        = { resp := some (ErrorResponse "min decryption version cannot be negative")
            err := none
            storage := storeOf ⟨"k", 5, 0, false⟩ } := by
  decide

/-- C4 (amended): for an existing policy record whose stored
MinDecryptionVersion is 0 and every request that passes validation
(min_decryption_version absent, or non-negative with its normalised value not
above LatestVersion), whatever deletion_allowed it carries, the handler hands
exactly one record to persistence, in which MinDecryptionVersion is at least 1:
it is 1 when min_decryption_version is absent, 0 or 1, and the requested value
otherwise. -/
theorem C4_legacy_upgrade (s : Storage) (name : String) (p : Policy)
    (mdv : Option Int) (da : Option Bool) (hp : HasPolicy s name p)
    (hzero : p.MinDecryptionVersion = 0)
    (hvalid : ∀ v, mdv = some v → 0 ≤ v ∧ normalizedVersion v ≤ p.LatestVersion) :
    (pathConfigWrite ⟨s⟩ ⟨name, mdv, da⟩).storage.persisted
        = s.persisted ++
            [{ p with MinDecryptionVersion := requestedOrOne mdv
                      DeletionAllowed := da.getD p.DeletionAllowed }] ∧
      1 ≤ requestedOrOne mdv ∧
      (mdv = none ∨ mdv = some 0 ∨ mdv = some 1 → requestedOrOne mdv = 1) ∧
      (∀ v, mdv = some v → 2 ≤ v → requestedOrOne mdv = v) ∧
      (∃ r, (pathConfigWrite ⟨s⟩ ⟨name, mdv, da⟩).resp = some r ∧ r.IsError = false) ∧
      (pathConfigWrite ⟨s⟩ ⟨name, mdv, da⟩).err = s.putErr.map GoError.storage := by
  rcases p with ⟨pn, pl, pm, pd⟩
  simp only at hzero
  subst hzero
  cases mdv with
  | none =>
      rw [pathConfigWrite_absent hp, pathConfigWriteTail_eq]
      simp [tailChanges, afterTail, requestedOrOne, Persist_persisted, Persist_err,
        Response.empty]
  | some v =>
      obtain ⟨hv0, hvl⟩ := hvalid v rfl
      have hpos := normalizedVersion_pos hv0
      have hne : normalizedVersion v ≠ 0 := by omega
      have hle : ¬ normalizedVersion v > pl := by simpa using hvl
      rw [pathConfigWrite_present hp v hv0, if_pos hne, if_neg hle, pathConfigWriteTail_eq]
      refine ⟨?_, hpos, ?_, ?_, ?_, ?_⟩
      · simp [afterTail, requestedOrOne, Persist_persisted, hne]
      · rintro (h | h | h)
        · cases h
        · cases h; rfl
        · cases h; rfl
      · intro w hw hw2
        cases hw
        simp only [requestedOrOne, normalizedVersion]
        rw [if_neg (by omega)]
      · refine ⟨respAfterNormalize v, by simp, ?_⟩
        unfold respAfterNormalize
        split <;> rfl
      · simp [Persist_err]

/-- Witness for C4 (amended): legacy record with LatestVersion 2, request of 0
together with deletion_allowed = true. -/
theorem C4_legacy_upgrade_witness :
    (pathConfigWrite ⟨storeOf ⟨"k", 2, 0, false⟩⟩ ⟨"k", some 0, some true⟩).storage.persisted
        = [⟨"k", 2, 1, true⟩] :=
  (C4_legacy_upgrade (storeOf ⟨"k", 2, 0, false⟩) "k" ⟨"k", 2, 0, false⟩ (some 0) (some true)
    (by decide) (by decide) (by intro v h; cases h; decide)).1

/-- C5: for an existing policy record of the data model (its stored
MinDecryptionVersion is the legacy 0 or at least 1) whose stored
MinDecryptionVersion is non-zero, and every request in which
min_decryption_version is absent or (after 0 is normalised to 1) equal to the
stored MinDecryptionVersion, and deletion_allowed is absent or equal to the
stored DeletionAllowed, the handler hands nothing to persistence, leaves the
storage, and so the stored record, as it was and returns (nil, nil): no
response, hence no warnings, and no error. -/
theorem C5_noop (s : Storage) (name : String) (p : Policy)
    (mdv : Option Int) (da : Option Bool) (hp : HasPolicy s name p)
    (hmodel : p.MinDecryptionVersion = 0 ∨ 1 ≤ p.MinDecryptionVersion)
    (hnonzero : p.MinDecryptionVersion ≠ 0)
    (hmdv : ∀ v, mdv = some v → normalizedVersion v = p.MinDecryptionVersion)
    (hda : ∀ b, da = some b → b = p.DeletionAllowed) :
    pathConfigWrite ⟨s⟩ ⟨name, mdv, da⟩ = { resp := none, err := none, storage := s } ∧
      (pathConfigWrite ⟨s⟩ ⟨name, mdv, da⟩).warnings = [] ∧
      persistCalls ⟨s⟩ ⟨name, mdv, da⟩ = [] ∧
      (pathConfigWrite ⟨s⟩ ⟨name, mdv, da⟩).storage.persisted = s.persisted ∧
      HasPolicy (pathConfigWrite ⟨s⟩ ⟨name, mdv, da⟩).storage name p := by
  have hone : 1 ≤ p.MinDecryptionVersion := by
    rcases hmodel with h | h
    · exact absurd h hnonzero
    · exact h
  have hsign : ∀ v, mdv = some v →
      0 ≤ v ∧ normalizedVersion v = p.MinDecryptionVersion := by
    intro v hv
    have heq := hmdv v hv
    refine ⟨?_, heq⟩
    unfold normalizedVersion at heq
    split at heq <;> omega
  have key := pathConfigWrite_noop hp mdv da hnonzero hsign hda
  refine ⟨key, ?_, ?_, ?_, ?_⟩
  · rw [key]
    rfl
  · unfold persistCalls
    rw [key]
    simp
  · rw [key]
  · rw [key]
    exact hp

/-- Witness for C5: stored minimum 1 and deletion flag false; a request of 0,
normalised to 1, with deletion_allowed = false changes nothing. -/
theorem C5_noop_witness :
    pathConfigWrite ⟨storeOf ⟨"k", 5, 1, false⟩⟩ ⟨"k", some 0, some false⟩
        = { resp := none, err := none, storage := storeOf ⟨"k", 5, 1, false⟩ } ∧
      persistCalls ⟨storeOf ⟨"k", 5, 1, false⟩⟩ ⟨"k", some 0, some false⟩ = [] :=
  have h := C5_noop (storeOf ⟨"k", 5, 1, false⟩) "k" ⟨"k", 5, 1, false⟩ (some 0) (some false)
    (by decide) (by decide) (by decide) (by intro v h; cases h; decide)
    (by intro b h; cases h; rfl)
  ⟨h.1, h.2.2.1⟩

/-- C6: idempotence.  For an existing policy record and a request on which the
handler succeeds (no error response, no Go error, so a persistence write, if
one was made, succeeded), applying the same request to the storage the first
call left returns (nil, nil), hands nothing to persistence and leaves that
storage, and so the stored record, unchanged. -/
theorem C6_idempotent (s : Storage) (name : String) (p : Policy)
    (mdv : Option Int) (da : Option Bool) (hp : HasPolicy s name p)
    (hok : (pathConfigWrite ⟨s⟩ ⟨name, mdv, da⟩).succeeded = true) :
    pathConfigWrite ⟨(pathConfigWrite ⟨s⟩ ⟨name, mdv, da⟩).storage⟩ ⟨name, mdv, da⟩
        = { resp := none, err := none
            storage := (pathConfigWrite ⟨s⟩ ⟨name, mdv, da⟩).storage } ∧
      (pathConfigWrite ⟨(pathConfigWrite ⟨s⟩ ⟨name, mdv, da⟩).storage⟩
          ⟨name, mdv, da⟩).storage.persisted
        = (pathConfigWrite ⟨s⟩ ⟨name, mdv, da⟩).storage.persisted ∧
      getPolicy ⟨(pathConfigWrite ⟨(pathConfigWrite ⟨s⟩ ⟨name, mdv, da⟩).storage⟩
          ⟨name, mdv, da⟩).storage⟩ name
        = getPolicy ⟨(pathConfigWrite ⟨s⟩ ⟨name, mdv, da⟩).storage⟩ name := by
  obtain ⟨q, hq, hnz, hmdv, hda⟩ := pathConfigWrite_settles hp mdv da hok
  rw [pathConfigWrite_noop hq mdv da hnz hmdv hda]
  exact ⟨rfl, rfl, rfl⟩

/-- Witness for C6: stored minimum 3, request of 0 with deletion_allowed = true;
the first call persists the record, the second is a no-op. -/
theorem C6_idempotent_witness :
    (pathConfigWrite ⟨storeOf ⟨"k", 5, 3, false⟩⟩ ⟨"k", some 0, some true⟩).storage.policies
        = [⟨"k", 5, 1, true⟩] ∧
      pathConfigWrite
          ⟨(pathConfigWrite ⟨storeOf ⟨"k", 5, 3, false⟩⟩ ⟨"k", some 0, some true⟩).storage⟩
          ⟨"k", some 0, some true⟩
        = { resp := none, err := none
            storage :=
              (pathConfigWrite ⟨storeOf ⟨"k", 5, 3, false⟩⟩ ⟨"k", some 0, some true⟩).storage } :=
  ⟨by decide,
    (C6_idempotent (storeOf ⟨"k", 5, 3, false⟩) "k" ⟨"k", 5, 3, false⟩ (some 0) (some true)
      (by decide) (by decide)).1⟩

/-- C7: for a key name with no stored policy record (the load answers
(nil, nil)) and every combination of the optional fields, the handler answers
an error response together with `logical.ErrInvalidRequest`; the message is
"no existing role named NAME could be found", which contains the key name;
nothing is handed to persistence and the storage is left as it was. -/
theorem C7_missing_policy_rejected (s : Storage) (name : String)
    (mdv : Option Int) (da : Option Bool)
    (habsent : getPolicy ⟨s⟩ name = (none, none)) :
    (pathConfigWrite ⟨s⟩ ⟨name, mdv, da⟩).resp
        = some (ErrorResponse ("no existing role named " ++ name ++ " could be found")) ∧
      name.data <:+: ("no existing role named " ++ name ++ " could be found").data ∧
      (pathConfigWrite ⟨s⟩ ⟨name, mdv, da⟩).err = some GoError.ErrInvalidRequest ∧
      persistCalls ⟨s⟩ ⟨name, mdv, da⟩ = [] ∧
      (pathConfigWrite ⟨s⟩ ⟨name, mdv, da⟩).storage = s := by
  have key : pathConfigWrite ⟨s⟩ ⟨name, mdv, da⟩
      = { resp := some (ErrorResponse ("no existing role named " ++ name ++ " could be found"))
          err := some GoError.ErrInvalidRequest
          storage := s } := by
    simp [pathConfigWrite, habsent]
  refine ⟨by rw [key], ?_, by rw [key], ?_, by rw [key]⟩
  · simp only [String.data_append]
    exact ⟨"no existing role named ".data, " could be found".data, rfl⟩
  · simp [persistCalls, key]

/-- Witness for C7: the only stored record is named "k", the request names "j"
and supplies both optional fields. -/
theorem C7_missing_policy_rejected_witness :
    (pathConfigWrite ⟨storeOf ⟨"k", 5, 3, false⟩⟩ ⟨"j", some 2, some true⟩).resp
        = some (ErrorResponse "no existing role named j could be found") ∧
      (pathConfigWrite ⟨storeOf ⟨"k", 5, 3, false⟩⟩ ⟨"j", some 2, some true⟩).err
        = some GoError.ErrInvalidRequest ∧
      persistCalls ⟨storeOf ⟨"k", 5, 3, false⟩⟩ ⟨"j", some 2, some true⟩ = [] :=
  have h := C7_missing_policy_rejected (storeOf ⟨"k", 5, 3, false⟩) "j" (some 2) (some true)
    (by decide)
  ⟨h.1, h.2.2.1, h.2.2.2.1⟩

/-- C8: invariant preservation.  For an existing policy record with
LatestVersion at least 1 whose MinDecryptionVersion is 0 or within
1..LatestVersion, and every request, every record the handler hands to
persistence has 1 ≤ MinDecryptionVersion ≤ LatestVersion, with LatestVersion
the loaded one: the minimum is never written as 0 and never above the latest
version. -/
theorem C8_invariant_preserved (s : Storage) (name : String) (p : Policy)
    (mdv : Option Int) (da : Option Bool) (hp : HasPolicy s name p)
    (hlatest : 1 ≤ p.LatestVersion)
    (hinv : p.MinDecryptionVersion = 0 ∨
      (1 ≤ p.MinDecryptionVersion ∧ p.MinDecryptionVersion ≤ p.LatestVersion)) :
    ∀ q ∈ persistCalls ⟨s⟩ ⟨name, mdv, da⟩,
      1 ≤ q.MinDecryptionVersion ∧ q.MinDecryptionVersion ≤ q.LatestVersion ∧
        q.LatestVersion = p.LatestVersion := by
  have hkeep : ∀ q, q ∈ (if (false || tailChanges da p) = true then [afterTail da p] else []) →
      1 ≤ q.MinDecryptionVersion ∧ q.MinDecryptionVersion ≤ q.LatestVersion ∧
        q.LatestVersion = p.LatestVersion := by
    intro q hq
    split at hq
    · rw [List.mem_singleton] at hq
      subst hq
      rw [afterTail_MinDecryptionVersion, afterTail_LatestVersion]
      split <;> omega
    · cases hq
  intro q hq
  unfold persistCalls at hq
  cases mdv with
  | none =>
      rw [pathConfigWrite_absent hp] at hq
      simp only [] at hq
      rw [pathConfigWriteTail_persisted] at hq
      exact hkeep q hq
  | some v =>
      by_cases hv : v < 0
      · rw [pathConfigWrite_negative hp v hv da] at hq
        simp at hq
      · have hv0 : 0 ≤ v := not_lt.mp hv
        have hpos := normalizedVersion_pos hv0
        rw [pathConfigWrite_present hp v hv0] at hq
        by_cases hne : normalizedVersion v ≠ p.MinDecryptionVersion
        · rw [if_pos hne] at hq
          by_cases hgt : normalizedVersion v > p.LatestVersion
          · rw [if_pos hgt] at hq
            simp at hq
          · rw [if_neg hgt] at hq
            simp only [] at hq
            rw [pathConfigWriteTail_persisted] at hq
            simp only [Bool.true_or, if_true, List.mem_singleton] at hq
            subst hq
            rw [afterTail_MinDecryptionVersion, afterTail_LatestVersion]
            simp only []
            split <;> (refine ⟨?_, ?_, trivial⟩ <;> omega)
        · rw [if_neg hne] at hq
          simp only [] at hq
          rw [pathConfigWriteTail_persisted] at hq
          exact hkeep q hq

/-- Witness for C8: legacy record (minimum 0, LatestVersion 2) and a request
with only deletion_allowed; the one record persisted has minimum 1. -/
theorem C8_invariant_preserved_witness :
    persistCalls ⟨storeOf ⟨"k", 2, 0, false⟩⟩ ⟨"k", none, some true⟩ = [⟨"k", 2, 1, true⟩] ∧
      ∀ q ∈ persistCalls ⟨storeOf ⟨"k", 2, 0, false⟩⟩ ⟨"k", none, some true⟩,
        1 ≤ q.MinDecryptionVersion ∧ q.MinDecryptionVersion ≤ q.LatestVersion ∧
          q.LatestVersion = 2 :=
  ⟨by decide,
    C8_invariant_preserved (storeOf ⟨"k", 2, 0, false⟩) "k" ⟨"k", 2, 0, false⟩ none (some true)
      (by decide) (by decide) (by decide)⟩

/-- C9: for an existing policy record and a requested min_decryption_version v
with 1 ≤ v ≤ LatestVersion that differs from the stored minimum (above or
below it), the handler hands exactly one record to persistence, in which
MinDecryptionVersion = v, and returns a response without warnings, together
with the storage collaborator's answer to that write. -/
theorem C9_version_change_persisted (s : Storage) (name : String) (p : Policy)
    (v : Int) (da : Option Bool) (hp : HasPolicy s name p)
    (hlow : 1 ≤ v) (hhigh : v ≤ p.LatestVersion) (hne : v ≠ p.MinDecryptionVersion) :
    persistCalls ⟨s⟩ ⟨name, some v, da⟩
        = [{ p with MinDecryptionVersion := v
                    DeletionAllowed := da.getD p.DeletionAllowed }] ∧
      (pathConfigWrite ⟨s⟩ ⟨name, some v, da⟩).resp
        = some { IsError := false, Error := none, Warnings := [] } ∧
      (pathConfigWrite ⟨s⟩ ⟨name, some v, da⟩).err = s.putErr.map GoError.storage := by
  have hv0 : 0 ≤ v := by omega
  have hnorm : normalizedVersion v = v := by
    unfold normalizedVersion
    split <;> omega
  have hnz : ¬ v = 0 := by omega
  have key := pathConfigWrite_present hp v hv0 da
  rw [hnorm, if_pos hne, if_neg (by omega), pathConfigWriteTail_eq] at key
  simp only [Bool.true_or, if_true] at key
  unfold persistCalls
  rw [key]
  refine ⟨?_, ?_, ?_⟩
  · simp [Persist_persisted, afterTail, hnz]
  · simp [respAfterNormalize, hnz, Response.empty]
  · simp [Persist_err]

/-- Witness for C9: stored minimum 3 and LatestVersion 5; the minimum is lowered
to 2 by one request and raised to 4 by another. -/
theorem C9_version_change_persisted_witness :
    persistCalls ⟨storeOf ⟨"k", 5, 3, false⟩⟩ ⟨"k", some 2, none⟩ = [⟨"k", 5, 2, false⟩] ∧
      persistCalls ⟨storeOf ⟨"k", 5, 3, false⟩⟩ ⟨"k", some 4, none⟩ = [⟨"k", 5, 4, false⟩] :=
  ⟨(C9_version_change_persisted (storeOf ⟨"k", 5, 3, false⟩) "k" ⟨"k", 5, 3, false⟩ 2 none
      (by decide) (by decide) (by decide) (by decide)).1,
    (C9_version_change_persisted (storeOf ⟨"k", 5, 3, false⟩) "k" ⟨"k", 5, 3, false⟩ 4 none
      (by decide) (by decide) (by decide) (by decide)).1⟩

/-- C10: for an existing policy record with non-zero MinDecryptionVersion and a
request that supplies only deletion_allowed = b, with b different from the
stored flag, the handler passes validation and hands exactly one record to
persistence, the loaded record with DeletionAllowed = b and every other field,
MinDecryptionVersion included, as stored; no relation between the version
fields is required.  The response is empty, the Go error is the storage
collaborator's answer, and when the put succeeds the call succeeds and the
stored record is that record. -/
theorem C10_deletion_toggle (s : Storage) (name : String) (p : Policy) (b : Bool)
    (hp : HasPolicy s name p) (hnonzero : p.MinDecryptionVersion ≠ 0)
    (hb : b ≠ p.DeletionAllowed) :
    persistCalls ⟨s⟩ ⟨name, none, some b⟩ = [{ p with DeletionAllowed := b }] ∧
      (pathConfigWrite ⟨s⟩ ⟨name, none, some b⟩).resp
        = some { IsError := false, Error := none, Warnings := [] } ∧
      (pathConfigWrite ⟨s⟩ ⟨name, none, some b⟩).err = s.putErr.map GoError.storage ∧
      (s.putErr = none →
        (pathConfigWrite ⟨s⟩ ⟨name, none, some b⟩).succeeded = true ∧
        HasPolicy (pathConfigWrite ⟨s⟩ ⟨name, none, some b⟩).storage name
          { p with DeletionAllowed := b }) := by
  obtain ⟨hname, hget⟩ := hp.name_eq
  have hafter : afterTail (some b) p = { p with DeletionAllowed := b } := by
    simp [afterTail, hnonzero]
  have hch : tailChanges (some b) p = true := by
    cases b <;> cases hd : p.DeletionAllowed <;> simp_all [tailChanges]
  have key := pathConfigWrite_absent hp (some b)
  rw [pathConfigWriteTail_eq] at key
  simp only [hch, Bool.or_true, if_true, hafter] at key
  unfold persistCalls
  rw [key]
  refine ⟨?_, ?_, ?_, ?_⟩
  · simp [Persist_persisted]
  · rfl
  · simp [Persist_err]
  · intro hput
    refine ⟨?_, ?_⟩
    · simp [Result.succeeded, Persist_err, hput, Response.empty]
    · rw [← hname]
      exact HasPolicy.persist { p with DeletionAllowed := b } hget hput

/-- Witness for C10: stored minimum 3 and deletion flag false; the request
supplies only deletion_allowed = true. -/
theorem C10_deletion_toggle_witness :
    persistCalls ⟨storeOf ⟨"k", 5, 3, false⟩⟩ ⟨"k", none, some true⟩ = [⟨"k", 5, 3, true⟩] ∧
      (pathConfigWrite ⟨storeOf ⟨"k", 5, 3, false⟩⟩ ⟨"k", none, some true⟩).err = none :=
  have h := C10_deletion_toggle (storeOf ⟨"k", 5, 3, false⟩) "k" ⟨"k", 5, 3, false⟩ true
    (by decide) (by decide) (by decide)
  ⟨h.1, h.2.2.1⟩

/-- C11: for an existing policy record and every request, every record the
handler hands to persistence has the Name and the LatestVersion of the loaded
record, and is the loaded record up to MinDecryptionVersion and
DeletionAllowed: those are the only fields the updater changes. -/
theorem C11_name_and_latest_kept (s : Storage) (name : String) (p : Policy)
    (mdv : Option Int) (da : Option Bool) (hp : HasPolicy s name p) :
    ∀ q ∈ persistCalls ⟨s⟩ ⟨name, mdv, da⟩,
      q.Name = p.Name ∧ q.LatestVersion = p.LatestVersion ∧
        q = { p with MinDecryptionVersion := q.MinDecryptionVersion
                     DeletionAllowed := q.DeletionAllowed } := by
  intro q hq
  by_cases hv : passesValidation p mdv
  · rw [persistCalls_validated hp mdv da hv] at hq
    split at hq
    · cases hq
    · rw [List.mem_singleton] at hq
      subst hq
      exact requestedRecord_frame p mdv da
  · rw [(persistCalls_rejected hp mdv da hv).1] at hq
    cases hq

/-- Witness for C11: a request changing both fields of the record named "k"
with LatestVersion 5; the record persisted keeps that name and latest
version. -/
theorem C11_name_and_latest_kept_witness :
    persistCalls ⟨storeOf ⟨"k", 5, 3, false⟩⟩ ⟨"k", some 2, some true⟩ = [⟨"k", 5, 2, true⟩] ∧
      ∀ q ∈ persistCalls ⟨storeOf ⟨"k", 5, 3, false⟩⟩ ⟨"k", some 2, some true⟩,
        q.Name = "k" ∧ q.LatestVersion = 5 ∧
          q = { (⟨"k", 5, 3, false⟩ : Policy) with
                  MinDecryptionVersion := q.MinDecryptionVersion
                  DeletionAllowed := q.DeletionAllowed } :=
  ⟨by decide,
    C11_name_and_latest_kept (storeOf ⟨"k", 5, 3, false⟩) "k" ⟨"k", 5, 3, false⟩ (some 2)
      (some true) (by decide)⟩

/-- C12: every call hands zero or one record to persistence.  It hands exactly
one, the requested record, when the record exists, the request passes
validation and the requested record differs from the loaded one, which is when
the request changes the version, changes the deletion flag, or the loaded
minimum is the legacy 0; it hands none in every other case, in particular
whenever the result is an error response.  Whenever a record is handed to
persistence, the Go error returned is the storage collaborator's answer to
that write. -/
theorem C12_zero_or_one_write (s : Storage) (name : String) (mdv : Option Int)
    (da : Option Bool) :
    (persistCalls ⟨s⟩ ⟨name, mdv, da⟩).length ≤ 1 ∧
      (∀ p, HasPolicy s name p → passesValidation p mdv →
        ((∃ v, mdv = some v ∧ normalizedVersion v ≠ p.MinDecryptionVersion) ∨
          (∃ b, da = some b ∧ b ≠ p.DeletionAllowed) ∨ p.MinDecryptionVersion = 0) →
        persistCalls ⟨s⟩ ⟨name, mdv, da⟩ = [requestedRecord p mdv da] ∧
          requestedRecord p mdv da ≠ p) ∧
      ((¬ ∃ p, HasPolicy s name p ∧ passesValidation p mdv ∧
          ((∃ v, mdv = some v ∧ normalizedVersion v ≠ p.MinDecryptionVersion) ∨
            (∃ b, da = some b ∧ b ≠ p.DeletionAllowed) ∨ p.MinDecryptionVersion = 0)) →
        persistCalls ⟨s⟩ ⟨name, mdv, da⟩ = [] ∧
          (pathConfigWrite ⟨s⟩ ⟨name, mdv, da⟩).storage = s) ∧
      ((pathConfigWrite ⟨s⟩ ⟨name, mdv, da⟩).isErrorResponse = true →
        persistCalls ⟨s⟩ ⟨name, mdv, da⟩ = []) ∧
      (persistCalls ⟨s⟩ ⟨name, mdv, da⟩ ≠ [] →
        (pathConfigWrite ⟨s⟩ ⟨name, mdv, da⟩).err = s.putErr.map GoError.storage) := by
  by_cases hex : ∃ p, HasPolicy s name p
  · obtain ⟨p, hp⟩ := hex
    have huniq : ∀ q, HasPolicy s name q → q = p := by
      intro q hq
      unfold HasPolicy at hp hq
      rw [hp] at hq
      simp only [Prod.mk.injEq, Option.some.injEq, and_true] at hq
      exact hq.symm
    by_cases hv : passesValidation p mdv
    · have hcalls := persistCalls_validated hp mdv da hv
      have hres := pathConfigWrite_validated hp mdv da hv
      by_cases hsame : requestedRecord p mdv da = p
      · rw [if_pos hsame] at hcalls hres
        have hnot := mt (requestedRecord_ne_iff p mdv da).mpr (not_not.mpr hsame)
        refine ⟨by simp [hcalls], ?_, ?_, ?_, ?_⟩
        · intro q hq _ hch
          rw [huniq q hq] at hch
          exact absurd hch hnot
        · intro _
          exact ⟨hcalls, by rw [hres]⟩
        · intro _
          exact hcalls
        · intro hne
          exact absurd hcalls hne
      · rw [if_neg hsame] at hcalls hres
        refine ⟨by simp [hcalls], ?_, ?_, ?_, ?_⟩
        · intro q hq _ _
          rw [huniq q hq]
          exact ⟨hcalls, hsame⟩
        · intro hno
          exact absurd ⟨p, hp, hv, (requestedRecord_ne_iff p mdv da).mp hsame⟩ hno
        · intro herr
          rw [hres] at herr
          cases mdv with
          | none => simp [Result.isErrorResponse, respFor, Response.empty] at herr
          | some v =>
              by_cases h0 : v = 0 <;>
                simp [Result.isErrorResponse, respFor, respAfterNormalize, Response.empty,
                  Response.AddWarning, h0] at herr
        · intro _
          rw [hres]
          exact Persist_err _ s
    · obtain ⟨hcalls, hst, _, _⟩ := persistCalls_rejected hp mdv da hv
      refine ⟨by simp [hcalls], ?_, ?_, ?_, ?_⟩
      · intro q hq hvq _
        rw [huniq q hq] at hvq
        exact absurd hvq hv
      · intro _
        exact ⟨hcalls, hst⟩
      · intro _
        exact hcalls
      · intro hne
        exact absurd hcalls hne
  · obtain ⟨hst, hcalls, _⟩ := pathConfigWrite_unreadable hex mdv da
    refine ⟨by simp [hcalls], ?_, ?_, ?_, ?_⟩
    · intro q hq _ _
      exact absurd ⟨q, hq⟩ hex
    · intro _
      exact ⟨hcalls, hst⟩
    · intro _
      exact hcalls
    · intro hne
      exact absurd hcalls hne

/-- Witness for C12: one write for a valid version change, none for a request
above the latest version, none for a missing record. -/
theorem C12_zero_or_one_write_witness :
    persistCalls ⟨storeOf ⟨"k", 5, 3, false⟩⟩ ⟨"k", some 2, none⟩ = [⟨"k", 5, 2, false⟩] ∧
      persistCalls ⟨storeOf ⟨"k", 5, 3, false⟩⟩ ⟨"k", some 6, some true⟩ = [] ∧
      persistCalls ⟨storeOf ⟨"k", 5, 3, false⟩⟩ ⟨"j", some 2, some true⟩ = [] :=
  ⟨((C12_zero_or_one_write (storeOf ⟨"k", 5, 3, false⟩) "k" (some 2) none).2.1
      ⟨"k", 5, 3, false⟩ (by decide) (by decide) (Or.inl ⟨2, rfl, by decide⟩)).1,
    (C12_zero_or_one_write (storeOf ⟨"k", 5, 3, false⟩) "k" (some 6) (some true)).2.2.2.1
      (by decide),
    ((C12_zero_or_one_write (storeOf ⟨"k", 5, 3, false⟩) "j" (some 2) (some true)).2.2.1
      (by rintro ⟨p, hp, _⟩; exact absurd hp (by unfold HasPolicy; simp [getPolicy, storeOf]))).1⟩

/-- C13: the handler refines the seven-step algorithm of section 4.1.  For
every storage state, key name, optional min_decryption_version and optional
deletion_allowed, the result of `pathConfigWrite`, observed at the interface
(failure kind and message, warnings, and the storage it leaves, which holds the
record written if any), equals the outcome of the reference function
`UpdateConfig` written from steps 1 to 7, with the source's wording for the two
texts the specification leaves open.  The reference function has no test
`minDecryptionVersion > 0`, so that test never changes the result. -/
theorem C13_refines_UpdateConfig (s : Storage) (name : String) (mdv : Option Int)
    (da : Option Bool) :
    observe (pathConfigWrite ⟨s⟩ ⟨name, mdv, da⟩) = UpdateConfig sourceWording s name mdv da := by
  rcases hg : getPolicy ⟨s⟩ name with ⟨_ | p, _ | e⟩
  · simp [pathConfigWrite, UpdateConfig, observe, hg, ErrorResponse, sourceWording]
  · cases e <;> simp [pathConfigWrite, UpdateConfig, observe, hg, Failure.ofStorage]
  · have hp : HasPolicy s name p := hg
    cases mdv with
    | none =>
        rw [pathConfigWrite_absent hp, observe_pathConfigWriteTail _ _ _ _ _ rfl]
        simp [UpdateConfig, hg, Response.empty]
    | some v =>
        by_cases hneg : v < 0
        · rw [pathConfigWrite_negative hp v hneg da]
          simp [UpdateConfig, observe, hg, hneg, ErrorResponse]
        · have hv0 : 0 ≤ v := not_lt.mp hneg
          have hresp : (respAfterNormalize v).IsError = false := by
            unfold respAfterNormalize
            split <;> rfl
          rw [pathConfigWrite_present hp v hv0]
          by_cases h0 : v = 0
          · subst h0
            have hn : normalizedVersion 0 = 1 := rfl
            rw [hn]
            by_cases hne : (1 : Int) ≠ p.MinDecryptionVersion
            · rw [if_pos hne]
              by_cases hgt : (1 : Int) > p.LatestVersion
              · rw [if_pos hgt]
                simp [UpdateConfig, observe, hg, hne, hgt, ErrorResponse, aboveLatestMessage]
              · rw [if_neg hgt, observe_pathConfigWriteTail _ _ _ _ _ hresp]
                simp [UpdateConfig, hg, hne, hgt, respAfterNormalize, Response.AddWarning,
                  Response.empty, sourceWording]
            · rw [if_neg hne, observe_pathConfigWriteTail _ _ _ _ _ hresp]
              simp [UpdateConfig, hg, hne, respAfterNormalize, Response.AddWarning,
                Response.empty, sourceWording]
          · have hn : normalizedVersion v = v := by
              unfold normalizedVersion
              rw [if_neg h0]
            rw [hn]
            by_cases hne : v ≠ p.MinDecryptionVersion
            · rw [if_pos hne]
              by_cases hgt : v > p.LatestVersion
              · rw [if_pos hgt]
                simp [UpdateConfig, observe, hg, hneg, h0, hne, hgt, ErrorResponse,
                  aboveLatestMessage]
              · rw [if_neg hgt, observe_pathConfigWriteTail _ _ _ _ _ hresp]
                simp [UpdateConfig, hg, hneg, h0, hne, hgt, respAfterNormalize, Response.empty]
            · rw [if_neg hne, observe_pathConfigWriteTail _ _ _ _ _ hresp]
              simp [UpdateConfig, hg, hneg, h0, hne, respAfterNormalize, Response.empty]
  · cases e <;> simp [pathConfigWrite, UpdateConfig, observe, hg, Failure.ofStorage]

/-- C14: for an existing policy record, the legacy-upgrade guard of line 95
changes the record exactly when the stored MinDecryptionVersion is 0 and the
request carries no min_decryption_version; in that case, whatever
deletion_allowed is, the call hands to persistence the record with
MinDecryptionVersion = 1.  Whenever min_decryption_version is present, either
control reaches the guard with a minimum of at least 1, or the call has
already returned an error response. -/
theorem C14_guard_fires_on_legacy_only (s : Storage) (name : String) (p : Policy)
    (mdv : Option Int) (da : Option Bool) (hp : HasPolicy s name p) :
    (guardFires ⟨s⟩ ⟨name, mdv, da⟩ = true ↔ p.MinDecryptionVersion = 0 ∧ mdv = none) ∧
      (p.MinDecryptionVersion = 0 → mdv = none →
        persistCalls ⟨s⟩ ⟨name, mdv, da⟩
          = [{ p with MinDecryptionVersion := 1
                      DeletionAllowed := da.getD p.DeletionAllowed }]) ∧
      (∀ v, mdv = some v →
        (∀ st, stateAtGuard ⟨s⟩ ⟨name, mdv, da⟩ = some st → 1 ≤ st.1.MinDecryptionVersion) ∧
        (stateAtGuard ⟨s⟩ ⟨name, mdv, da⟩ = none →
          (pathConfigWrite ⟨s⟩ ⟨name, mdv, da⟩).isErrorResponse = true)) := by
  have hpresent : ∀ v, mdv = some v →
      (∀ st, stateAtGuard ⟨s⟩ ⟨name, mdv, da⟩ = some st → 1 ≤ st.1.MinDecryptionVersion) ∧
      (stateAtGuard ⟨s⟩ ⟨name, mdv, da⟩ = none →
        (pathConfigWrite ⟨s⟩ ⟨name, mdv, da⟩).isErrorResponse = true) := by
    intro v hv
    subst hv
    by_cases hneg : v < 0
    · rw [stateAtGuard_negative hp v hneg da, pathConfigWrite_negative hp v hneg da]
      exact ⟨fun st h => (nomatch h), fun _ => rfl⟩
    · have hv0 : 0 ≤ v := not_lt.mp hneg
      have hpos := normalizedVersion_pos hv0
      rw [stateAtGuard_present hp v hv0 da, pathConfigWrite_present hp v hv0 da]
      by_cases hne : normalizedVersion v ≠ p.MinDecryptionVersion
      · rw [if_pos hne, if_pos hne]
        by_cases hgt : normalizedVersion v > p.LatestVersion
        · rw [if_pos hgt, if_pos hgt]
          exact ⟨fun st h => (nomatch h), fun _ => rfl⟩
        · rw [if_neg hgt, if_neg hgt]
          refine ⟨?_, fun h => by cases h⟩
          intro st h
          cases h
          rw [deletionBranch_MinDecryptionVersion]
          exact hpos
      · rw [if_neg hne, if_neg hne]
        refine ⟨?_, fun h => by cases h⟩
        intro st h
        cases h
        rw [deletionBranch_MinDecryptionVersion]
        have heq : normalizedVersion v = p.MinDecryptionVersion := not_not.mp hne
        omega
  refine ⟨?_, ?_, hpresent⟩
  · cases mdv with
    | none =>
        unfold guardFires
        rw [stateAtGuard_absent hp da]
        simp [deletionBranch_MinDecryptionVersion]
    | some v =>
        constructor
        · intro hf
          unfold guardFires at hf
          cases hst : stateAtGuard ⟨s⟩ ⟨name, some v, da⟩ with
          | none => simp [hst] at hf
          | some st =>
              have h1 := (hpresent v rfl).1 st hst
              rcases st with ⟨pol, resp, dirty⟩
              simp only [hst, decide_eq_true_eq] at hf
              simp only [] at h1
              omega
        · rintro ⟨_, h⟩
          cases h
  · intro hzero hnone
    subst hnone
    rw [persistCalls_validated hp none da trivial]
    have hne : requestedRecord p none da ≠ p :=
      (requestedRecord_ne_iff p none da).mpr (Or.inr (Or.inr hzero))
    rw [if_neg hne]
    simp [requestedRecord, afterTail, hzero]

/-- Witness for C14: legacy record (minimum 0, LatestVersion 2) and a request
carrying only deletion_allowed; the guard fires and the record is persisted
with minimum 1. -/
theorem C14_guard_fires_on_legacy_only_witness :
    guardFires ⟨storeOf ⟨"k", 2, 0, false⟩⟩ ⟨"k", none, some true⟩ = true ∧
      persistCalls ⟨storeOf ⟨"k", 2, 0, false⟩⟩ ⟨"k", none, some true⟩ = [⟨"k", 2, 1, true⟩] :=
  have h := C14_guard_fires_on_legacy_only (storeOf ⟨"k", 2, 0, false⟩) "k" ⟨"k", 2, 0, false⟩
    none (some true) (by decide)
  ⟨h.1.mpr ⟨rfl, rfl⟩, h.2.1 rfl rfl⟩

/-- C15: for an existing policy record with arbitrary field values and every
request, the handler answers the error response "cannot set min decryption
version of ..." if and only if min_decryption_version is present, is not
negative, and its normalised value (0 replaced by 1) differs from the stored
MinDecryptionVersion and exceeds LatestVersion; the message then names the
normalised value and LatestVersion.  In particular a requested value whose
normalised value equals the stored MinDecryptionVersion is never answered with
an error response, whatever LatestVersion is. -/
theorem C15_above_latest_error_iff (s : Storage) (name : String) (p : Policy)
    (mdv : Option Int) (da : Option Bool) (hp : HasPolicy s name p) :
    ((∃ a b, (pathConfigWrite ⟨s⟩ ⟨name, mdv, da⟩).resp
          = some (ErrorResponse (aboveLatestMessage a b))) ↔
        ∃ v, mdv = some v ∧ 0 ≤ v ∧ normalizedVersion v ≠ p.MinDecryptionVersion ∧
          normalizedVersion v > p.LatestVersion) ∧
      (∀ v, mdv = some v → 0 ≤ v → normalizedVersion v ≠ p.MinDecryptionVersion →
        normalizedVersion v > p.LatestVersion →
        (pathConfigWrite ⟨s⟩ ⟨name, mdv, da⟩).resp
          = some (ErrorResponse ("cannot set min decryption version of "
              ++ toString (normalizedVersion v) ++ ", latest key version is "
              ++ toString p.LatestVersion))) ∧
      (∀ v, mdv = some v → 0 ≤ v → normalizedVersion v = p.MinDecryptionVersion →
        (pathConfigWrite ⟨s⟩ ⟨name, mdv, da⟩).isErrorResponse = false) := by
  refine ⟨⟨?_, ?_⟩, ?_, ?_⟩
  · rintro ⟨a, b, hab⟩
    by_cases hv : passesValidation p mdv
    · rw [pathConfigWrite_validated hp mdv da hv] at hab
      split at hab
      · cases hab
      · simp only [Option.some.injEq] at hab
        have := congrArg Response.IsError hab
        rw [(respFor_facts mdv).1] at this
        cases this
    · obtain ⟨v, hmdv, h | h⟩ := pathConfigWrite_rejected hp mdv da hv
      · rw [h.2] at hab
        simp only [Option.some.injEq, ErrorResponse, Response.mk.injEq, and_true, true_and]
          at hab
        exact absurd hab.symm (aboveLatestMessage_ne_negative a b)
      · exact ⟨v, hmdv, h.1, h.2.1, h.2.2.1⟩
  · rintro ⟨v, hmdv, hv0, hne, hgt⟩
    subst hmdv
    refine ⟨normalizedVersion v, p.LatestVersion, ?_⟩
    rw [pathConfigWrite_present hp v hv0, if_pos hne, if_pos hgt]
  · intro v hmdv hv0 hne hgt
    subst hmdv
    rw [pathConfigWrite_present hp v hv0, if_pos hne, if_pos hgt]
    rfl
  · intro v hmdv hv0 heq
    subst hmdv
    have hv : passesValidation p (some v) := ⟨hv0, Or.inl heq⟩
    rw [pathConfigWrite_validated hp (some v) da hv]
    split
    · rfl
    · exact (respFor_facts (some v)).1

/-- Witness for C15: a record whose stored minimum 7 is above its
LatestVersion 5; a request of 7 is accepted as a no-op, a request of 6 is
answered with the upper-bound error. -/
theorem C15_above_latest_error_iff_witness :
    (pathConfigWrite ⟨storeOf ⟨"k", 5, 7, false⟩⟩ ⟨"k", some 7, none⟩).isErrorResponse = false ∧
      (pathConfigWrite ⟨storeOf ⟨"k", 5, 7, false⟩⟩ ⟨"k", some 6, none⟩).resp
        = some (ErrorResponse "cannot set min decryption version of 6, latest key version is 5") :=
  ⟨(C15_above_latest_error_iff (storeOf ⟨"k", 5, 7, false⟩) "k" ⟨"k", 5, 7, false⟩ (some 7)
      none (by decide)).2.2 7 rfl (by decide) (by decide),
    (C15_above_latest_error_iff (storeOf ⟨"k", 5, 7, false⟩) "k" ⟨"k", 5, 7, false⟩ (some 6)
      none (by decide)).2.1 6 rfl (by decide) (by decide) (by decide)⟩

/-- C16: for an existing policy record and every request that passes
validation (the result is not an error response), the result carries a
warning if and only if min_decryption_version = 0 was supplied and a record
was handed to persistence, and then it carries exactly one warning, the
numbering warning.  A request of 0 against a record whose MinDecryptionVersion
is already 1, with deletion_allowed absent or equal to the stored flag,
returns (nil, nil) without touching the storage: the warning is not
delivered. -/
theorem C16_warning_only_when_persisted (s : Storage) (name : String) (p : Policy)
    (mdv : Option Int) (da : Option Bool) (hp : HasPolicy s name p)
    (hvalid : (pathConfigWrite ⟨s⟩ ⟨name, mdv, da⟩).isErrorResponse = false) :
    ((pathConfigWrite ⟨s⟩ ⟨name, mdv, da⟩).warnings ≠ [] ↔
        mdv = some 0 ∧ persistCalls ⟨s⟩ ⟨name, mdv, da⟩ ≠ []) ∧
      ((pathConfigWrite ⟨s⟩ ⟨name, mdv, da⟩).warnings ≠ [] →
        (pathConfigWrite ⟨s⟩ ⟨name, mdv, da⟩).warnings = [numberingWarning]) ∧
      (pathConfigWrite ⟨s⟩ ⟨name, mdv, da⟩).warnings.length ≤ 1 ∧
      (mdv = some 0 → p.MinDecryptionVersion = 1 →
        (∀ b, da = some b → b = p.DeletionAllowed) →
        pathConfigWrite ⟨s⟩ ⟨name, mdv, da⟩ = { resp := none, err := none, storage := s } ∧
          (pathConfigWrite ⟨s⟩ ⟨name, mdv, da⟩).warnings = []) := by
  have hv : passesValidation p mdv := by
    by_contra hnot
    rw [(persistCalls_rejected hp mdv da hnot).2.2.1] at hvalid
    cases hvalid
  have hres := pathConfigWrite_validated hp mdv da hv
  have hcalls := persistCalls_validated hp mdv da hv
  obtain ⟨_, hwarn0, hwarn⟩ := respFor_facts mdv
  by_cases hsame : requestedRecord p mdv da = p
  · rw [if_pos hsame] at hres hcalls
    rw [hres, hcalls]
    refine ⟨?_, ?_, ?_, ?_⟩
    · simp [Result.warnings]
    · simp [Result.warnings]
    · simp [Result.warnings]
    · intro _ _ _
      exact ⟨rfl, rfl⟩
  · rw [if_neg hsame] at hres hcalls
    rw [hres, hcalls]
    by_cases h0 : mdv = some 0
    · subst h0
      have hw := hwarn0 rfl
      refine ⟨?_, ?_, ?_, ?_⟩
      · simp [Result.warnings, hw]
      · intro _
        simpa [Result.warnings] using hw
      · simp [Result.warnings, hw]
      · intro _ hone hda
        exfalso
        apply hsame
        rcases p with ⟨pn, pl, pm, pd⟩
        simp only at hone hda
        subst hone
        cases da with
        | none => rfl
        | some b =>
            rw [hda b rfl]
            rfl
    · have hw := hwarn h0
      refine ⟨?_, ?_, ?_, ?_⟩
      · simp [Result.warnings, hw, h0]
      · intro h
        simp [Result.warnings, hw] at h
      · simp [Result.warnings, hw]
      · intro h
        exact absurd h h0

/-- Witness for C16: a request of 0 against a stored minimum of 3 is persisted
and carries the one warning; the same request against a stored minimum of 1 is
a no-op and carries none. -/
theorem C16_warning_only_when_persisted_witness :
    (pathConfigWrite ⟨storeOf ⟨"k", 5, 3, false⟩⟩ ⟨"k", some 0, none⟩).warnings
        = [numberingWarning] ∧
      pathConfigWrite ⟨storeOf ⟨"k", 5, 1, false⟩⟩ ⟨"k", some 0, some false⟩
        = { resp := none, err := none, storage := storeOf ⟨"k", 5, 1, false⟩ } :=
  ⟨(C16_warning_only_when_persisted (storeOf ⟨"k", 5, 3, false⟩) "k" ⟨"k", 5, 3, false⟩
      (some 0) none (by decide) (by decide)).2.1 (by decide),
    ((C16_warning_only_when_persisted (storeOf ⟨"k", 5, 1, false⟩) "k" ⟨"k", 5, 1, false⟩
      (some 0) (some false) (by decide) (by decide)).2.2.2 rfl rfl
        (by intro b h; cases h; rfl)).1⟩

end Transit
